import Mathlib

/-!
# Sleeping teaching assistant (Assignment3/A3.c)

A shallow embedding of `A3.c` as an interleaving transition system.  Every
thread is a small program-counter machine whose steps are the statements of
`ta_thread` and `student_thread` that touch shared state (`waiting`, the two
semaphores, the mutex, `students_active`); one step of the system is one
statement of one thread.  `printf`, `sleep_ms` and the random durations do not
touch shared state and are folded into the neighbouring step.

The fields in the "history counters" groups are not program variables: they
count how often a given statement has been executed, so that properties about
"the number of posts" can be stated.

Modelling assumptions.  Memory is sequentially consistent.  The calls whose
result the program does not check (`pthread_mutex_lock`, `pthread_mutex_unlock`,
`sem_post`, and the blocking `sem_wait(&ta_ready)` of the students) succeed: a
lock or a wait returns only once it has acquired the mutex or lowered the
semaphore (the program installs no signal handler).  `int` values are
mathematical integers: `waiting` stays within `[0, NUM_CHAIRS]` and the
counters within `int`; the loop variable `k` stays within `int` as long as
`REQS_PER_STUDENT < INT_MAX`.
-/

namespace A3

/-! ## Configuration and `parse_args` -/

/-- The three tunables of `A3.c`, all of C type `int`. -/
structure Config where
  NUM_STUDENTS : Int
  NUM_CHAIRS : Int
  REQS_PER_STUDENT : Int
  deriving DecidableEq, Repr

/-- The initial values of the tunables (lines 47-49). -/
def defaults : Config :=
  { NUM_STUDENTS := 5, NUM_CHAIRS := 3, REQS_PER_STUDENT := 3 }

/-- One result of `getopt(argc, argv, "s:c:r:h")`: a recognised flag together
with the value `atoi(optarg)`, the help flag, or anything else (`?`). -/
inductive Opt where
  | s (v : Int)
  | c (v : Int)
  | r (v : Int)
  | h
  | unknown
  deriving DecidableEq, Repr

/-- The `while ((opt = getopt(...)) != -1)` loop of `parse_args` (lines
187-198) over the successive results of `getopt`.  `Except.error e` is
`exit(e)`. -/
def parse_loop : Config → List Opt → Except Int Config
  | cfg, [] => .ok cfg
  | cfg, .s v :: rest => parse_loop { cfg with NUM_STUDENTS := v } rest
  | cfg, .c v :: rest => parse_loop { cfg with NUM_CHAIRS := v } rest
  | cfg, .r v :: rest => parse_loop { cfg with REQS_PER_STUDENT := v } rest
  | _, .h :: _ => .error 0
  | _, .unknown :: _ => .error 1

/-- The three clamping statements at the end of `parse_args` (lines 199-201). -/
def clamp (cfg : Config) : Config :=
  let cfg1 := if cfg.NUM_STUDENTS < 1 then { cfg with NUM_STUDENTS := 1 } else cfg
  let cfg2 := if cfg1.NUM_CHAIRS < 0 then { cfg1 with NUM_CHAIRS := 0 } else cfg1
  if cfg2.REQS_PER_STUDENT < 1 then { cfg2 with REQS_PER_STUDENT := 1 } else cfg2

/-- The function `parse_args` (lines 185-202), started on the initial values
of the globals. -/
def parse_args (opts : List Opt) : Except Int Config :=
  match parse_loop defaults opts with
  | .ok cfg => .ok (clamp cfg)
  | .error e => .error e

/-- The value a flag ends up with: the last occurrence wins, the default
applies when the flag is absent. -/
def lastS : Int → List Opt → Int
  | d, [] => d
  | _, .s v :: rest => lastS v rest
  | d, _ :: rest => lastS d rest

/-- Last `-c` value, see `lastS`. -/
def lastC : Int → List Opt → Int
  | d, [] => d
  | _, .c v :: rest => lastC v rest
  | d, _ :: rest => lastC d rest

/-- Last `-r` value, see `lastS`. -/
def lastR : Int → List Opt → Int
  | d, [] => d
  | _, .r v :: rest => lastR v rest
  | d, _ :: rest => lastR d rest

/-- The option list contains only `-s`, `-c`, `-r`. -/
def onlyValues : List Opt → Bool
  | [] => true
  | .h :: _ => false
  | .unknown :: _ => false
  | _ :: rest => onlyValues rest

/-! ## Threads -/

/-- Thread identities, used for the owner of `mtx`. -/
inductive Tid where
  | ta
  | stu (i : Nat)
  deriving DecidableEq, Repr

/-- Program counter of `ta_thread` (lines 105-139).  Each constructor names
the statement that the thread executes next. -/
inductive TaPc where
  /-- line 111: `sem_wait_ms(&customers, TA_POLL_MS)` -/
  | wait
  /-- line 113: `pthread_mutex_lock(&mtx)` in the shutdown check -/
  | lockCheck
  /-- line 114: `int w = waiting` -/
  | readW
  /-- line 115: `pthread_mutex_unlock(&mtx)` -/
  | unlockCheck
  /-- line 116: `if (atomic_load(&students_active) == 0 && w == 0)` -/
  | shutdownTest
  /-- line 125: `pthread_mutex_lock(&mtx)` before serving -/
  | lockServe
  /-- line 126: `if (waiting > 0) waiting--` -/
  | release
  /-- line 127: `pthread_mutex_unlock(&mtx)` -/
  | unlockServe
  /-- line 130: `sem_post(&ta_ready)` -/
  | post
  /-- lines 133-135: helping (sleep), then back to the top of the loop -/
  | help
  /-- line 138: the loop was left with `break`; the thread returns -/
  | closed
  deriving DecidableEq, Repr

/-- Program counter of `student_thread` (lines 142-182). -/
inductive StuPc where
  /-- line 147: the loop test `k <= args->requests_to_make` -/
  | loop
  /-- lines 149-152: programming (sleep) -/
  | program
  /-- line 155: `pthread_mutex_lock(&mtx)` -/
  | lock
  /-- line 156: `if (waiting < NUM_CHAIRS)` -/
  | test
  /-- lines 157-159: `waiting++` -/
  | inc
  /-- line 161: `sem_post(&customers)` -/
  | post
  /-- line 162: `pthread_mutex_unlock(&mtx)` in the seated branch -/
  | unlockSeated
  /-- line 165: `sem_wait(&ta_ready)` -/
  | waitReady
  /-- line 168 and the loop increment `++k` -/
  | helped
  /-- lines 172-173: `pthread_mutex_unlock(&mtx)` in the else branch, then `++k` -/
  | abandon
  /-- line 178: `atomic_fetch_sub(&students_active, 1)` -/
  | finish
  /-- lines 179-181: the thread returns -/
  | done
  deriving DecidableEq, Repr

/-- Local state of one student thread. -/
structure Student where
  pc : StuPc
  /-- the loop variable `k` -/
  k : Int
  /-- history counter: executions of the test on line 156 -/
  attempts : Nat
  /-- history counter: executions of `waiting++` on line 157 -/
  seated : Nat
  /-- history counter: times the else branch (line 170) was taken -/
  abandoned : Nat
  deriving DecidableEq, Repr

/-- Global state of the running program. -/
structure State where
  /-- `static int waiting` -/
  waiting : Int
  /-- value of the semaphore `customers` -/
  customers : Nat
  /-- value of the semaphore `ta_ready` -/
  ta_ready : Nat
  /-- `static atomic_int students_active` -/
  students_active : Int
  /-- owner of `mtx`, `none` when unlocked -/
  mtx : Option Tid
  /-- program counter of the TA thread -/
  ta : TaPc
  /-- the TA's local `int w` -/
  w : Int
  /-- the student threads, `students[i]` having `id = i + 1` -/
  students : List Student
  /-- history counter: executions of `waiting++` (line 157) -/
  seatings : Nat
  /-- history counter: else branches taken (line 170) -/
  abandons : Nat
  /-- history counter: executions of `sem_post(&customers)` (line 161) -/
  custPosts : Nat
  /-- history counter: successful returns of `sem_wait_ms(&customers, _)` -/
  lowers : Nat
  /-- history counter: executions of `sem_post(&ta_ready)` (line 130) -/
  readyPosts : Nat
  /-- history counter: completed passes through lines 124-135 -/
  cycles : Nat
  deriving DecidableEq, Repr

/-- How the call `sem_wait_ms(&customers, TA_POLL_MS)` on line 111 returns.
Interrupted waits (`EINTR`) are retried inside `sem_wait_ms` and never
return. -/
inductive WaitResult where
  /-- `sem_timedwait` returned 0: the semaphore was lowered, result `true` -/
  | acquired
  /-- `errno == ETIMEDOUT`, result `false` -/
  | timedOut
  /-- any other `errno`, result `false` after `perror` -/
  | failed
  deriving DecidableEq, Repr

/-- A scheduling choice: which thread runs its next statement.  For the TA the
choice also fixes how a pending `sem_wait_ms` returns; the argument is ignored
at every other program counter. -/
inductive Action where
  | ta (r : WaitResult)
  | stu (i : Nat)
  deriving DecidableEq, Repr

/-- The state in which `main` starts the threads: both semaphores initialised
to 0 (lines 211-212), `students_active` set to `NUM_STUDENTS` (line 218), the
TA at the top of its loop and every student at `k = 1`.  A thread that has not
been created yet behaves like a thread that has not been scheduled yet. -/
def init (cfg : Config) : State :=
  { waiting := 0, customers := 0, ta_ready := 0,
    students_active := cfg.NUM_STUDENTS, mtx := none, ta := .wait, w := 0,
    students := List.replicate cfg.NUM_STUDENTS.toNat
      { pc := .loop, k := 1, attempts := 0, seated := 0, abandoned := 0 },
    seatings := 0, abandons := 0, custPosts := 0, lowers := 0,
    readyPosts := 0, cycles := 0 }

/-- One statement of `ta_thread`.  `none` means the thread cannot run: it is
blocked on the mutex, the requested outcome of the wait is impossible for the
current semaphore value, or it has returned. -/
def ta_thread_step (s : State) (r : WaitResult) : Option State :=
  match s.ta with
  | .wait =>
    match r with
    | .acquired =>
      if 0 < s.customers then
        some { s with customers := s.customers - 1, lowers := s.lowers + 1, ta := .lockServe }
      else none
    | .timedOut =>
      if s.customers = 0 then some { s with ta := .lockCheck } else none
    | .failed => some { s with ta := .lockCheck }
  | .lockCheck =>
    if s.mtx = none then some { s with mtx := some .ta, ta := .readW } else none
  | .readW => some { s with w := s.waiting, ta := .unlockCheck }
  | .unlockCheck => some { s with mtx := none, ta := .shutdownTest }
  | .shutdownTest =>
    if s.students_active = 0 ∧ s.w = 0 then some { s with ta := .closed }
    else some { s with ta := .wait }
  | .lockServe =>
    if s.mtx = none then some { s with mtx := some .ta, ta := .release } else none
  | .release =>
    some { s with waiting := if 0 < s.waiting then s.waiting - 1 else s.waiting,
                  ta := .unlockServe }
  | .unlockServe => some { s with mtx := none, ta := .post }
  | .post =>
    some { s with ta_ready := s.ta_ready + 1, readyPosts := s.readyPosts + 1, ta := .help }
  | .help => some { s with cycles := s.cycles + 1, ta := .wait }
  | .closed => none

/-- Replace the local state of student `i`. -/
def State.setStu (s : State) (i : Nat) (st : Student) : State :=
  { s with students := s.students.set i st }

/-- One statement of `student_thread`, executed by the student at index `i`
whose local state is `st`. -/
def student_stmt (cfg : Config) (s : State) (i : Nat) (st : Student) : Option State :=
  match st.pc with
  | .loop =>
    if st.k ≤ cfg.REQS_PER_STUDENT then some (s.setStu i { st with pc := .program })
    else some (s.setStu i { st with pc := .finish })
  | .program => some (s.setStu i { st with pc := .lock })
  | .lock =>
    if s.mtx = none then
      some ({ s with mtx := some (.stu i) }.setStu i { st with pc := .test })
    else none
  | .test =>
    if s.waiting < cfg.NUM_CHAIRS then
      some (s.setStu i { st with pc := .inc, attempts := st.attempts + 1 })
    else
      some ({ s with abandons := s.abandons + 1 }.setStu i
        { st with pc := .abandon, attempts := st.attempts + 1,
                  abandoned := st.abandoned + 1 })
  | .inc =>
    some ({ s with waiting := s.waiting + 1, seatings := s.seatings + 1 }.setStu i
      { st with pc := .post, seated := st.seated + 1 })
  | .post =>
    some ({ s with customers := s.customers + 1, custPosts := s.custPosts + 1 }.setStu i
      { st with pc := .unlockSeated })
  | .unlockSeated => some ({ s with mtx := none }.setStu i { st with pc := .waitReady })
  | .waitReady =>
    if 0 < s.ta_ready then
      some ({ s with ta_ready := s.ta_ready - 1 }.setStu i { st with pc := .helped })
    else none
  | .helped => some (s.setStu i { st with pc := .loop, k := st.k + 1 })
  | .abandon =>
    some ({ s with mtx := none }.setStu i { st with pc := .loop, k := st.k + 1 })
  | .finish =>
    some ({ s with students_active := s.students_active - 1 }.setStu i { st with pc := .done })
  | .done => none

/-- One statement of the student thread with index `i`, if there is one. -/
def student_thread_step (cfg : Config) (s : State) (i : Nat) : Option State :=
  match s.students[i]? with
  | none => none
  | some st => student_stmt cfg s i st

/-- One step of the whole program under the scheduling choice `a`. -/
def step (cfg : Config) (s : State) : Action → Option State
  | .ta r => ta_thread_step s r
  | .stu i => student_thread_step cfg s i

/-- Run a schedule from a state; `none` if some chosen thread cannot run. -/
def run (cfg : Config) : State → List Action → Option State
  | s, [] => some s
  | s, a :: rest =>
    match step cfg s a with
    | none => none
    | some s1 => run cfg s1 rest

/-- States reachable from the initial state by some interleaving. -/
inductive Reachable (cfg : Config) : State → Prop where
  | init : Reachable cfg (init cfg)
  | step {s s1 : State} (a : Action) :
      Reachable cfg s → step cfg s a = some s1 → Reachable cfg s1

/-- States reachable from a given state. -/
inductive ReachableFrom (cfg : Config) (s0 : State) : State → Prop where
  | refl : ReachableFrom cfg s0 s0
  | step {s s1 : State} (a : Action) :
      ReachableFrom cfg s0 s → step cfg s a = some s1 → ReachableFrom cfg s0 s1

/-! ## Observations on states -/

/-- Sum of a per-student quantity over all students. -/
def sumOver (f : Student → Nat) : List Student → Nat
  | [] => 0
  | st :: rest => f st + sumOver f rest

/-- Number of students whose program counter satisfies `p`. -/
def countPc (p : StuPc → Bool) (l : List Student) : Nat :=
  sumOver (fun st => if p st.pc then 1 else 0) l

/-- The student is about to execute `sem_post(&customers)`. -/
def atPost : StuPc → Bool
  | .loop => false
  | .program => false
  | .lock => false
  | .test => false
  | .inc => false
  | .post => true
  | .unlockSeated => false
  | .waitReady => false
  | .helped => false
  | .abandon => false
  | .finish => false
  | .done => false

/-- The student has executed `waiting++` and has not yet returned from
`sem_wait(&ta_ready)`. -/
def isPending : StuPc → Bool
  | .loop => false
  | .program => false
  | .lock => false
  | .test => false
  | .inc => false
  | .post => true
  | .unlockSeated => true
  | .waitReady => true
  | .helped => false
  | .abandon => false
  | .finish => false
  | .done => false

/-- The student thread has returned. -/
def isDone : StuPc → Bool
  | .loop => false
  | .program => false
  | .lock => false
  | .test => false
  | .inc => false
  | .post => false
  | .unlockSeated => false
  | .waitReady => false
  | .helped => false
  | .abandon => false
  | .finish => false
  | .done => true

/-- The student holds `mtx` (lines 156-162 and 172-173). -/
def inCritical : StuPc → Bool
  | .loop => false
  | .program => false
  | .lock => false
  | .test => true
  | .inc => true
  | .post => true
  | .unlockSeated => true
  | .waitReady => false
  | .helped => false
  | .abandon => true
  | .finish => false
  | .done => false

/-- The TA holds `mtx` (lines 114-115 and 126-127). -/
def taCritical : TaPc → Bool
  | .wait => false
  | .lockCheck => false
  | .readW => true
  | .unlockCheck => true
  | .shutdownTest => false
  | .lockServe => false
  | .release => true
  | .unlockServe => true
  | .post => false
  | .help => false
  | .closed => false

/-- The TA has lowered `customers` and has not yet executed line 126. -/
def taOwesRelease : TaPc → Nat
  | .wait => 0
  | .lockCheck => 0
  | .readW => 0
  | .unlockCheck => 0
  | .shutdownTest => 0
  | .lockServe => 1
  | .release => 1
  | .unlockServe => 0
  | .post => 0
  | .help => 0
  | .closed => 0

/-- The TA has lowered `customers` and has not yet executed line 130. -/
def taOwesPost : TaPc → Nat
  | .wait => 0
  | .lockCheck => 0
  | .readW => 0
  | .unlockCheck => 0
  | .shutdownTest => 0
  | .lockServe => 1
  | .release => 1
  | .unlockServe => 1
  | .post => 1
  | .help => 0
  | .closed => 0

/-- The TA has posted `ta_ready` and is still helping. -/
def taHelping : TaPc → Nat
  | .wait => 0
  | .lockCheck => 0
  | .readW => 0
  | .unlockCheck => 0
  | .shutdownTest => 0
  | .lockServe => 0
  | .release => 0
  | .unlockServe => 0
  | .post => 0
  | .help => 1
  | .closed => 0

/-- Every student thread has returned. -/
def allDone (s : State) : Prop :=
  ∀ st ∈ s.students, st.pc = .done

instance (s : State) : Decidable (allDone s) := by
  unfold allDone; infer_instance

/-- Terminal state of a full run: all students done and the TA closed. -/
def terminated (s : State) : Prop :=
  allDone s ∧ s.ta = .closed

instance (s : State) : Decidable (terminated s) := by
  unfold terminated; infer_instance

/-- Exit status of `main` on the path on which every `sem_init`, `calloc`,
`malloc` and `pthread_create` succeeded, which is the path `init` starts from
(lines 240-252): once every student and the TA have been joined, `main`
destroys the primitives and returns 0.  Before that it is still blocked in
`pthread_join`. -/
def main_exit (s : State) : Option Int :=
  if terminated s then some 0 else none

/-! ## Invariants -/

/-- The student is inside an attempt: line 156 has been executed and the
loop increment `++k` has not. -/
def inAttempt : StuPc → Bool
  | .loop => false
  | .program => false
  | .lock => false
  | .test => false
  | .inc => true
  | .post => true
  | .unlockSeated => true
  | .waitReady => true
  | .helped => true
  | .abandon => true
  | .finish => false
  | .done => false

/-- The student is inside the loop body (lines 148-175). -/
def inBody : StuPc → Bool
  | .loop => false
  | .program => true
  | .lock => true
  | .test => true
  | .inc => true
  | .post => true
  | .unlockSeated => true
  | .waitReady => true
  | .helped => true
  | .abandon => true
  | .finish => false
  | .done => false

/-- The student has left the loop. -/
def pastLoop : StuPc → Bool
  | .loop => false
  | .program => false
  | .lock => false
  | .test => false
  | .inc => false
  | .post => false
  | .unlockSeated => false
  | .waitReady => false
  | .helped => false
  | .abandon => false
  | .finish => true
  | .done => true

/-- Bookkeeping between the semaphores, `waiting` and the history counters. -/
structure CountInv (s : State) : Prop where
  posts : s.custPosts = s.customers + s.lowers
  seats : s.seatings = s.custPosts + countPc atPost s.students
  room : s.waiting + s.lowers = s.seatings + taOwesRelease s.ta
  owes : s.lowers = s.readyPosts + taOwesPost s.ta
  cyc : s.readyPosts = s.cycles + taHelping s.ta
  ready : s.readyPosts + countPc isPending s.students = s.ta_ready + s.seatings

/-- The owner recorded for `mtx` is exactly the thread inside a critical
section. -/
structure MutexInv (s : State) : Prop where
  taMtx : taCritical s.ta = true ↔ s.mtx = some .ta
  stuMtx : ∀ (i : Nat) (st : Student), s.students[i]? = some st →
    (inCritical st.pc = true ↔ s.mtx = some (.stu i))
  owner : ∀ j : Nat, s.mtx = some (.stu j) → j < s.students.length

/-- Bookkeeping of `students_active`, and the TA closes only after every
student has returned. -/
structure ActiveInv (cfg : Config) (s : State) : Prop where
  active : s.students_active + countPc isDone s.students = cfg.NUM_STUDENTS
  len : s.students.length = cfg.NUM_STUDENTS.toNat
  closed : s.ta = .closed → allDone s ∧ s.students_active = 0

/-- Bounds on `waiting` and on the TA's snapshot `w`. -/
structure RoomInv (cfg : Config) (s : State) : Prop where
  nonneg : 0 ≤ s.waiting
  cap : s.waiting ≤ max 0 cfg.NUM_CHAIRS
  incRoom : ∀ (i : Nat) (st : Student), s.students[i]? = some st → st.pc = .inc →
    s.waiting < cfg.NUM_CHAIRS
  wRead : (s.ta = .unlockCheck ∨ s.ta = .shutdownTest) → 0 ≤ s.w ∧ s.w ≤ s.waiting

/-- Relation between a student's loop variable and its history counters. -/
structure StuInv (cfg : Config) (st : Student) : Prop where
  kLow : 1 ≤ st.k
  kHigh : st.k ≤ max cfg.REQS_PER_STUDENT 0 + 1
  split : st.attempts = st.seated + st.abandoned + (if st.pc = .inc then 1 else 0)
  index : st.k + (if inAttempt st.pc then 1 else 0) = st.attempts + 1
  body : inBody st.pc = true → st.k ≤ cfg.REQS_PER_STUDENT
  past : pastLoop st.pc = true → cfg.REQS_PER_STUDENT < st.k

/-- Every student satisfies `StuInv`, and the global history counters are the
sums of the per-student ones. -/
structure LocalInv (cfg : Config) (s : State) : Prop where
  each : ∀ st ∈ s.students, StuInv cfg st
  sumSeated : sumOver (fun st => st.seated) s.students = s.seatings
  sumAbandoned : sumOver (fun st => st.abandoned) s.students = s.abandons

/-- All invariants together. -/
structure Inv (cfg : Config) (s : State) : Prop where
  count : CountInv s
  mutex : MutexInv s
  active : ActiveInv cfg s
  room : RoomInv cfg s
  loc : LocalInv cfg s

/-! ## Concrete configurations and schedules -/

/-- The state reached from the initial state by a schedule (the initial state
itself if the schedule asks a blocked or finished thread to run). -/
def after (cfg : Config) (acts : List Action) : State :=
  (run cfg (init cfg) acts).getD (init cfg)

/-- The scenario `students=1, chairs=1, requests=1`. -/
def cfg111 : Config := { NUM_STUDENTS := 1, NUM_CHAIRS := 1, REQS_PER_STUDENT := 1 }

/-- The scenario `students=3, chairs=1, requests=2`. -/
def cfg312 : Config := { NUM_STUDENTS := 3, NUM_CHAIRS := 1, REQS_PER_STUDENT := 2 }

/-- The scenario with no chairs: `students=2, chairs=0, requests=1`. -/
def cfg201 : Config := { NUM_STUDENTS := 2, NUM_CHAIRS := 0, REQS_PER_STUDENT := 1 }

/-- A full run of `cfg111`: the student programs, sits down and posts; the TA
wakes up, serves and helps; the student leaves; the TA times out and closes. -/
def sched111 : List Action :=
  [.stu 0, .stu 0, .stu 0, .stu 0, .stu 0, .stu 0, .stu 0,
   .ta .acquired, .ta .acquired, .ta .acquired, .ta .acquired, .ta .acquired,
   .ta .acquired,
   .stu 0, .stu 0, .stu 0, .stu 0,
   .ta .timedOut, .ta .timedOut, .ta .timedOut, .ta .timedOut, .ta .timedOut]

/-- A prefix of a run of `cfg312` in which student 0 sits in the only chair
and student 1 then takes the mutex and is about to test for a chair. -/
def sched312 : List Action :=
  [.stu 0, .stu 0, .stu 0, .stu 0, .stu 0, .stu 0, .stu 0,
   .stu 1, .stu 1, .stu 1]

/-- A full run of `cfg312`: student 0 takes the chair; students 1 and 2 find
it taken on both of their attempts and leave; the TA serves student 0, who
comes back, is seated and served a second time; then the TA times out and
closes. -/
def sched312full : List Action :=
  List.replicate 7 (.stu 0) ++ List.replicate 12 (.stu 1) ++ List.replicate 12 (.stu 2)
    ++ List.replicate 5 (.ta .acquired) ++ List.replicate 9 (.stu 0)
    ++ List.replicate 6 (.ta .acquired) ++ List.replicate 4 (.stu 0)
    ++ List.replicate 6 (.ta .timedOut)

/-- A full run of `cfg201`: both students give up their only attempt, then the
TA times out and closes. -/
def sched201 : List Action :=
  List.replicate 7 (.stu 0) ++ List.replicate 7 (.stu 1) ++ List.replicate 5 (.ta .timedOut)

/-- Number of statements the TA still has to execute before it has closed,
when no student arrives any more and every wait from now on fails: the rest
of a service cycle, then one failed wait and the shutdown check. -/
def taDistance : TaPc → Nat
  | .lockServe => 10
  | .release => 9
  | .unlockServe => 8
  | .post => 7
  | .help => 6
  | .wait => 5
  | .lockCheck => 4
  | .readW => 3
  | .unlockCheck => 2
  | .shutdownTest => 1
  | .closed => 0

/-- A prefix of a run of `cfg111` after which the only student is done while
the TA is still helping (it has posted `ta_ready` and sleeps on line 134). -/
def sched111served : List Action :=
  List.replicate 7 (.stu 0) ++ List.replicate 5 (.ta .acquired) ++ List.replicate 4 (.stu 0)

/-- A prefix of a run of `cfg111`: the student is seated and has posted
`customers`; the TA has lowered `customers` and is about to take the mutex. -/
def sched111lowered : List Action :=
  List.replicate 7 (.stu 0) ++ [.ta .acquired]

/-- A prefix of a run of `cfg111`: as `sched111lowered`, and the TA has taken
the mutex and is about to execute `if (waiting > 0) waiting--`. -/
def sched111release : List Action :=
  List.replicate 7 (.stu 0) ++ [.ta .acquired, .ta .acquired]

/-- A state that no run reaches: the initial state of `cfg111` with the TA
placed at line 126 although nobody has been seated. -/
def emptyRelease : State :=
  { init cfg111 with ta := .release, mtx := some .ta }

/-! ## `sem_wait_ms`, `rand_range` and the seeds -/

/-- Lower bound of a programming interval in milliseconds (line 99). -/
def PROGRAM_MIN_MS : Int := 200

/-- Upper bound of a programming interval in milliseconds (line 99). -/
def PROGRAM_MAX_MS : Int := 800

/-- Lower bound of a help interval in milliseconds (line 100). -/
def HELP_MIN_MS : Int := 200

/-- Upper bound of a help interval in milliseconds (line 100). -/
def HELP_MAX_MS : Int := 600

/-- Polling interval of the TA in milliseconds (line 101). -/
def TA_POLL_MS : Int := 300

/-- Outcome of one call `sem_timedwait(sem, &ts)` (line 81): it returned 0, or
it returned -1 with `errno` equal to `EINTR`, to `ETIMEDOUT`, or to anything
else. -/
inductive TimedWait where
  | acquired
  | eintr
  | etimedout
  | other
  deriving DecidableEq, Repr

/-- The `while (true)` loop of `sem_wait_ms` (lines 80-86) over the outcomes of
the successive calls of `sem_timedwait`.  `none`: every call so far was
interrupted, the loop is still running and nothing has been returned. -/
def sem_wait_ms_loop : List TimedWait → Option Bool
  | [] => none
  | .acquired :: _ => some true
  | .eintr :: rest => sem_wait_ms_loop rest
  | .etimedout :: _ => some false
  | .other :: _ => some false

/-- The function `sem_wait_ms` (lines 67-87).  `waitOk` tells whether the
blocking `sem_wait` of the branch `timeout_ms < 0` returned 0.  The deadline
`ts` computed on lines 72-79 only influences which outcomes `sem_timedwait`
produces. -/
def sem_wait_ms (timeout_ms : Int) (waitOk : Bool) (outcomes : List TimedWait) :
    Option Bool :=
  if timeout_ms < 0 then some waitOk else sem_wait_ms_loop outcomes

/-- How the loop of `sem_wait_ms` is left, as seen by `ta_thread`: the outcome
of the first call of `sem_timedwait` that was not interrupted. -/
def sem_wait_ms_result : List TimedWait → Option WaitResult
  | [] => none
  | .acquired :: _ => some .acquired
  | .eintr :: rest => sem_wait_ms_result rest
  | .etimedout :: _ => some .timedOut
  | .other :: _ => some .failed

/-- The value `sem_wait_ms` returns for a given way of leaving its loop; the
TA tests it on line 111. -/
def WaitResult.returns : WaitResult → Bool
  | .acquired => true
  | .timedOut => false
  | .failed => false

/-- The first outcome that is not `EINTR`, if any (the notion the
specification uses to describe `sem_wait_ms`). -/
def firstNonEintr (outcomes : List TimedWait) : Option TimedWait :=
  outcomes.find? (fun o => o ≠ .eintr)

/-- Conversion of an `int` to `unsigned int`. -/
def toUnsigned (x : Int) : Int := x % 4294967296

/-- Conversion of an `unsigned int` to `int`. -/
def toInt32 (u : Int) : Int := if u < 2147483648 then u else u - 4294967296

/-- The function `rand_range` (lines 61-64).  `rand_r` maps the generator
state `*rng` to the value it returns and the new state.  When `hi <= lo` the
generator is not called.  The final addition is the mathematical one. -/
def rand_range (rand_r : Nat → Int × Nat) (rng : Nat) (lo hi : Int) : Int × Nat :=
  if hi ≤ lo then (lo, rng)
  else
    (lo + toInt32 (toUnsigned (rand_r rng).1 % toUnsigned (hi - lo + 1)), (rand_r rng).2)

/-- The programming interval chosen on line 149. -/
def code_ms (rand_r : Nat → Int × Nat) (rng : Nat) : Int :=
  (rand_range rand_r rng PROGRAM_MIN_MS PROGRAM_MAX_MS).1

/-- The help interval chosen on line 134; `now` is the value of `time(NULL)`,
converted to `unsigned int` to seed a fresh generator state. -/
def help_ms (rand_r : Nat → Int × Nat) (now : Int) : Int :=
  (rand_range rand_r (toUnsigned now).toNat HELP_MIN_MS HELP_MAX_MS).1

/-- The seed `sa->rng` computed on line 231 for the student with loop index
`i`: `now` is the value of `time(NULL)` (a 64-bit `time_t`), `addr` the address
`sa` as `uintptr_t`.  The XOR is taken in 64 bits, the product
`i * 2654435761u` in 32 bits, and the result is cut to 32 bits. -/
def seed (now : Int) (addr : Nat) (i : Nat) : Nat :=
  (((now % 18446744073709551616).toNat ^^^ (addr % 18446744073709551616))
    ^^^ (i * 2654435761 % 4294967296)) % 4294967296

/-- The part of the seed that comes from the time and the address: the low 32
bits of `time(NULL) ^ (uintptr_t)sa`. -/
def seedMix (now : Int) (addr : Nat) : Nat :=
  ((now % 18446744073709551616).toNat ^^^ (addr % 18446744073709551616)) % 4294967296

end A3

/-! # The history buffer of the shell (Assignment2/shell.c) -/

namespace Shell

/-- The constant `HISTORY_SIZE` (line 13). -/
def HISTORY_SIZE : Int := 5

/-- The struct `History` (lines 16-21).  A `char *` is `none` when it is `NULL`
and otherwise the string it points to. -/
structure History where
  items : List (Option String)
  count : Int
  total : Int
  next : Int
  deriving DecidableEq, Repr

/-- The state after `history_init` (lines 23-25): `memset` to 0. -/
def history_init : History :=
  { items := List.replicate 5 none, count := 0, total := 0, next := 0 }

/-- The function `history_add` (lines 38-61); `cmd = none` is a `NULL`
pointer.  `strdup` is taken to succeed (otherwise the shell exits).  The
operator `%` of C truncates, as `Int.tmod` does. -/
def history_add (h : History) (cmd : Option String) : History :=
  match cmd with
  | none => h
  | some c =>
    if c = "" then h
    else
      { items := h.items.set h.next.toNat (some c),
        next := (h.next + 1).tmod HISTORY_SIZE,
        count := if h.count < HISTORY_SIZE then h.count + 1 else h.count,
        total := h.total + 1 }

/-- The function `history_most_recent` (lines 63-71). -/
def history_most_recent (h : History) : Option String :=
  if h.count = 0 then none
  else h.items.getD ((h.next - 1 + HISTORY_SIZE).tmod HISTORY_SIZE).toNat none

/-- The function `history_print` (lines 73-86): the lines it prints, in
order, each given by the number and the string passed to `printf`. -/
def history_print (h : History) : List (Int × Option String) :=
  if h.count = 0 then []
  else
    (List.range h.count.toNat).map fun (k : Nat) =>
      (h.total - (k : Int),
        h.items.getD ((h.next - 1 - (k : Int) + HISTORY_SIZE).tmod HISTORY_SIZE).toNat none)

/-- The history after `history_init` followed by `history_add` of each command
in turn. -/
def addAll (cmds : List String) : History :=
  cmds.foldl (fun h c => history_add h (some c)) history_init

/-- What the buffer holds after exactly the commands `cmds` (all non-empty)
have been added, the last of them most recently. -/
structure Holds (cmds : List String) (h : History) : Prop where
  len : h.items.length = 5
  count : h.count = (min cmds.length 5 : Nat)
  total : h.total = (cmds.length : Nat)
  next : h.next = (cmds.length % 5 : Nat)
  item : ∀ k : Nat, k < min cmds.length 5 →
    h.items.getD ((cmds.length - 1 - k) % 5) none = cmds[cmds.length - 1 - k]?

end Shell

namespace A3

/-! ## List bookkeeping -/

theorem sumOver_set_add (f : Student → Nat) :
    ∀ (l : List Student) (i : Nat) (a b : Student), l[i]? = some a →
      sumOver f (l.set i b) + f a = sumOver f l + f b
  | [], i, a, b, h => by simp at h
  | x :: l, 0, a, b, h => by
    simp at h
    subst h
    simp [sumOver]; omega
  | x :: l, i + 1, a, b, h => by
    simp at h
    have := sumOver_set_add f l i a b h
    simp [sumOver]; omega

theorem sumOver_ge (f : Student → Nat) :
    ∀ (l : List Student) (i : Nat) (a : Student), l[i]? = some a → f a ≤ sumOver f l
  | [], i, a, h => by simp at h
  | x :: l, 0, a, h => by
    simp at h
    subst h
    simp [sumOver]
  | x :: l, i + 1, a, h => by
    simp at h
    have := sumOver_ge f l i a h
    simp [sumOver]; omega

theorem sumOver_set (f : Student → Nat) (l : List Student) (i : Nat) (a b : Student)
    (h : l[i]? = some a) :
    sumOver f (l.set i b) = sumOver f l + f b - f a := by
  have h1 := sumOver_set_add f l i a b h
  omega

theorem countPc_set (p : StuPc → Bool) (l : List Student) (i : Nat) (a b : Student)
    (h : l[i]? = some a) :
    countPc p (l.set i b)
      = countPc p l + (if p b.pc then 1 else 0) - (if p a.pc then 1 else 0) :=
  sumOver_set (fun st => if p st.pc then 1 else 0) l i a b h

theorem countPc_ge (p : StuPc → Bool) (l : List Student) (i : Nat) (a : Student)
    (h : l[i]? = some a) : (if p a.pc then 1 else 0) ≤ countPc p l :=
  sumOver_ge (fun st => if p st.pc then 1 else 0) l i a h

/-! ## Preservation of the invariants -/

theorem count_ta {s s1 : State} {r : WaitResult} (h : CountInv s)
    (hs : ta_thread_step s r = some s1) : CountInv s1 := by
  obtain ⟨h1, h2, h3, h4, h5, h6⟩ := h
  unfold ta_thread_step at hs
  split at hs <;> (try split at hs) <;> (try split at hs) <;>
    simp at hs <;> subst hs <;>
    constructor <;> simp_all [taOwesRelease, taOwesPost, taHelping] <;> omega

theorem count_stu {cfg : Config} {s s1 : State} {i : Nat} {st : Student} (h : CountInv s)
    (hi : s.students[i]? = some st)
    (hs : student_stmt cfg s i st = some s1) : CountInv s1 := by
  obtain ⟨h1, h2, h3, h4, h5, h6⟩ := h
  have g1 := countPc_ge atPost _ _ _ hi
  have g2 := countPc_ge isPending _ _ _ hi
  cases hpc : st.pc <;> simp only [student_stmt, hpc] at hs <;>
    (try split at hs) <;> simp at hs <;> subst hs <;>
    constructor <;>
    simp only [State.setStu, countPc_set _ _ _ _ _ hi, hpc, atPost, isPending] at * <;>
    simp at * <;> omega

theorem mutex_ta {s s1 : State} {r : WaitResult} (h : MutexInv s)
    (hs : ta_thread_step s r = some s1) : MutexInv s1 := by
  obtain ⟨h1, h2, h0⟩ := h
  unfold ta_thread_step at hs
  split at hs <;> (try split at hs) <;> (try split at hs) <;>
    simp at hs <;> subst hs <;> rename_i hpc <;>
    (constructor
     · simp_all [taCritical]
     · intro j x hj
       have h3 := h2 j x hj
       simp_all [taCritical]
     · intro j hj
       simp at hj
       try exact h0 j hj)

theorem mutex_stu {cfg : Config} {s s1 : State} {i : Nat} {st : Student} (h : MutexInv s)
    (hi : s.students[i]? = some st)
    (hs : student_stmt cfg s i st = some s1) : MutexInv s1 := by
  obtain ⟨h1, h2, h0⟩ := h
  have hself := h2 i st hi
  have hlt : i < s.students.length := (List.getElem?_eq_some.mp hi).1
  cases hpc : st.pc <;> simp only [student_stmt, hpc] at hs <;>
    (try split at hs) <;> simp at hs <;> subst hs <;>
    simp only [hpc, inCritical] at hself <;>
    (constructor
     · simp only [State.setStu]
       simp_all
     · intro j x hj
       simp only [State.setStu, List.getElem?_set] at hj
       by_cases hij : i = j
       · subst hij
         simp [hlt] at hj
         subst hj
         simp_all [State.setStu, inCritical]
       · simp [hij] at hj
         have h3 := h2 j x hj
         simp only [State.setStu]
         clear h2
         simp_all
     · intro j hj
       simp [State.setStu] at hj ⊢
       all_goals first
         | exact h0 j hj
         | (subst hj; exact hlt))

theorem sumOver_le_length (f : Student → Nat) (hf : ∀ st, f st ≤ 1) :
    ∀ l : List Student, sumOver f l ≤ l.length
  | [] => by simp [sumOver]
  | x :: l => by
    have h1 := sumOver_le_length f hf l
    have h2 := hf x
    simp [sumOver]; omega

theorem countPc_le_length (p : StuPc → Bool) (l : List Student) : countPc p l ≤ l.length :=
  sumOver_le_length (fun st => if p st.pc then 1 else 0) (by intro st; dsimp only; split <;> omega) l

theorem countPc_eq_length (p : StuPc → Bool) :
    ∀ l : List Student, countPc p l = l.length → ∀ st ∈ l, p st.pc = true
  | [], _, st, hst => by simp at hst
  | x :: l, h, st, hst => by
    have h1 := countPc_le_length p l
    simp only [countPc, sumOver, List.length_cons] at h
    simp only [countPc] at h1
    by_cases hx : p x.pc = true
    · simp [hx] at h
      have h2 : countPc p l = l.length := by simp only [countPc]; omega
      rcases List.mem_cons.mp hst with h3 | h3
      · subst h3; exact hx
      · exact countPc_eq_length p l h2 st h3
    · simp [hx] at h
      omega

theorem active_ta {cfg : Config} {s s1 : State} {r : WaitResult} (h : ActiveInv cfg s)
    (hs : ta_thread_step s r = some s1) : ActiveInv cfg s1 := by
  obtain ⟨h1, h2, h3⟩ := h
  unfold ta_thread_step at hs
  split at hs <;> (try split at hs) <;> (try split at hs) <;>
    simp at hs <;> subst hs <;> rename_i hpc <;>
    (constructor <;> try simp_all [allDone])
  intro st hst
  have h4 : countPc isDone s.students = s.students.length := by
    omega
  have h5 := countPc_eq_length isDone s.students h4 st hst
  cases hp : st.pc <;> simp [hp, isDone] at h5
  rfl

theorem active_stu {cfg : Config} {s s1 : State} {i : Nat} {st : Student}
    (h : ActiveInv cfg s) (hi : s.students[i]? = some st)
    (hs : student_stmt cfg s i st = some s1) : ActiveInv cfg s1 := by
  obtain ⟨h1, h2, h3⟩ := h
  have g1 := countPc_ge isDone _ _ _ hi
  have hmem : st ∈ s.students := List.getElem?_mem hi
  have hnc : s.ta ≠ .closed := by
    intro hc
    have := (h3 hc).1 st hmem
    simp [student_stmt, this] at hs
  cases hpc : st.pc <;> simp only [student_stmt, hpc] at hs <;>
    (try split at hs) <;> simp at hs <;> subst hs <;>
    (constructor
     · simp only [State.setStu, countPc_set _ _ _ _ _ hi, hpc, isDone] at *
       simp at *
       omega
     · simpa [State.setStu] using h2
     · intro hc
       simp [State.setStu] at hc
       exact absurd hc hnc)

theorem room_ta {cfg : Config} {s s1 : State} {r : WaitResult} (h : RoomInv cfg s)
    (hs : ta_thread_step s r = some s1) : RoomInv cfg s1 := by
  obtain ⟨h1, h2, h3, h4⟩ := h
  unfold ta_thread_step at hs
  split at hs <;> (try split at hs) <;> (try split at hs) <;>
    simp at hs <;> subst hs <;> rename_i hpc <;>
    (constructor
     · simp only []
       try split
       all_goals omega
     · simp only []
       try split
       all_goals omega
     · intro j x hj hx
       have h5 := h3 j x hj hx
       simp only []
       try split
       all_goals omega
     · simp_all)

theorem room_stu {cfg : Config} {s s1 : State} {i : Nat} {st : Student}
    (h : RoomInv cfg s) (hm : MutexInv s) (hi : s.students[i]? = some st)
    (hs : student_stmt cfg s i st = some s1) : RoomInv cfg s1 := by
  obtain ⟨h1, h2, h3, h4⟩ := h
  have hself := hm.stuMtx i st hi
  have hroom := h3 i st hi
  have hlt : i < s.students.length := (List.getElem?_eq_some.mp hi).1
  cases hpc : st.pc <;> simp only [student_stmt, hpc] at hs <;>
    (try split at hs) <;> simp at hs <;> subst hs <;>
    simp only [hpc, inCritical] at hself hroom <;>
    (constructor
     · simp only [State.setStu]
       omega
     · simp only [State.setStu]
       simp at hroom
       omega
     · intro j x hj hx
       simp only [State.setStu, List.getElem?_set] at hj
       by_cases hij : i = j
       · subst hij
         simp [hlt] at hj
         subst hj
         simp at hx
         try simp only [State.setStu]
         try assumption
       · simp [hij] at hj
         have h5 := h3 j x hj hx
         have h6 := hm.stuMtx j x hj
         simp only [State.setStu]
         simp [hx, inCritical] at h6
         first
           | exact h5
           | (simp [h6] at hself; exact absurd hself.symm hij)
     · intro hta
       simp only [State.setStu] at hta ⊢
       have := h4 hta
       omega)

theorem local_ta {cfg : Config} {s s1 : State} {r : WaitResult} (h : LocalInv cfg s)
    (hs : ta_thread_step s r = some s1) : LocalInv cfg s1 := by
  obtain ⟨h1, h2, h3⟩ := h
  unfold ta_thread_step at hs
  split at hs <;> (try split at hs) <;> (try split at hs) <;>
    simp at hs <;> subst hs <;> exact ⟨h1, h2, h3⟩

theorem stuInv_stmt {cfg : Config} {s s1 : State} {i : Nat} {st : Student}
    (h : StuInv cfg st) (hs : student_stmt cfg s i st = some s1) :
    ∃ st1, s1.students = s.students.set i st1 ∧ StuInv cfg st1 := by
  obtain ⟨h1, h2, h3, h4, h5, h6⟩ := h
  cases hpc : st.pc <;> simp only [student_stmt, hpc] at hs <;>
    (try split at hs) <;> simp at hs <;> subst hs <;>
    simp only [hpc, inAttempt, inBody, pastLoop] at h3 h4 h5 h6 <;>
    refine ⟨_, rfl, ?_⟩ <;>
    (constructor <;> simp [inAttempt, inBody, pastLoop] at * <;> omega)

theorem local_stu {cfg : Config} {s s1 : State} {i : Nat} {st : Student}
    (h : LocalInv cfg s) (hi : s.students[i]? = some st)
    (hs : student_stmt cfg s i st = some s1) : LocalInv cfg s1 := by
  obtain ⟨h1, h2, h3⟩ := h
  have hmem : st ∈ s.students := List.getElem?_mem hi
  obtain ⟨st1, e1, e2⟩ := stuInv_stmt (h1 st hmem) hs
  have g1 := sumOver_ge (fun st => st.seated) _ _ _ hi
  have g2 := sumOver_ge (fun st => st.abandoned) _ _ _ hi
  refine ⟨?_, ?_, ?_⟩
  · intro x hx
    rw [e1] at hx
    rcases List.mem_or_eq_of_mem_set hx with h4 | h4
    · exact h1 x h4
    · subst h4; exact e2
  · clear e1 e2
    cases hpc : st.pc <;> simp only [student_stmt, hpc] at hs <;>
      (try split at hs) <;> simp at hs <;> subst hs <;>
      simp only [State.setStu, sumOver_set _ _ _ _ _ hi] at * <;> omega
  · clear e1 e2
    cases hpc : st.pc <;> simp only [student_stmt, hpc] at hs <;>
      (try split at hs) <;> simp at hs <;> subst hs <;>
      simp only [State.setStu, sumOver_set _ _ _ _ _ hi] at * <;> omega

theorem sumOver_replicate (f : Student → Nat) (x : Student) :
    ∀ n : Nat, sumOver f (List.replicate n x) = n * f x
  | 0 => by simp [sumOver]
  | n + 1 => by
    simp [List.replicate_succ, sumOver, sumOver_replicate f x n]
    ring

theorem inv_init (cfg : Config) : Inv cfg (init cfg) := by
  refine ⟨⟨?_, ?_, ?_, ?_, ?_, ?_⟩, ⟨?_, ?_, ?_⟩, ⟨?_, ?_, ?_⟩, ⟨?_, ?_, ?_, ?_⟩, ⟨?_, ?_, ?_⟩⟩ <;>
    simp [init, countPc, sumOver_replicate, atPost, isPending, isDone, taOwesRelease,
      taOwesPost, taHelping, taCritical]
  · intro i st hst
    rw [List.getElem?_replicate] at hst
    split at hst
    · simp at hst
      subst hst
      rfl
    · simp at hst
  · intro i st hst hpc
    rw [List.getElem?_replicate] at hst
    split at hst
    · simp at hst
      subst hst
      simp at hpc
    · simp at hst
  · intro _
    constructor <;> simp [inAttempt, inBody, pastLoop]

theorem inv_step {cfg : Config} {s s1 : State} {a : Action} (h : Inv cfg s)
    (hs : step cfg s a = some s1) : Inv cfg s1 := by
  obtain ⟨h1, h2, h3, h4, h5⟩ := h
  cases a with
  | ta r =>
    exact ⟨count_ta h1 hs, mutex_ta h2 hs, active_ta h3 hs, room_ta h4 hs, local_ta h5 hs⟩
  | stu i =>
    simp only [step, student_thread_step] at hs
    split at hs
    · simp at hs
    · rename_i st hi
      exact ⟨count_stu h1 hi hs, mutex_stu h2 hi hs, active_stu h3 hi hs,
        room_stu h4 h2 hi hs, local_stu h5 hi hs⟩

theorem inv_reachable {cfg : Config} {s : State} (h : Reachable cfg s) : Inv cfg s := by
  induction h with
  | init => exact inv_init cfg
  | step a _ hs ih => exact inv_step ih hs

theorem reachable_run {cfg : Config} :
    ∀ (acts : List Action) {s s1 : State}, Reachable cfg s → run cfg s acts = some s1 →
      Reachable cfg s1
  | [], s, s1, h, hr => by
    simp [run] at hr
    subst hr
    exact h
  | a :: rest, s, s1, h, hr => by
    simp only [run] at hr
    split at hr
    · simp at hr
    · rename_i s2 hs
      exact reachable_run rest (Reachable.step a h hs) hr

/-! ## Consequences of the invariants -/

theorem reachable_after (cfg : Config) (acts : List Action) :
    Reachable cfg (after cfg acts) := by
  unfold after
  cases h : run cfg (init cfg) acts with
  | none => exact Reachable.init
  | some s1 => exact reachable_run acts Reachable.init h

theorem sumOver_eq_zero (f : Student → Nat) :
    ∀ l : List Student, (∀ st ∈ l, f st = 0) → sumOver f l = 0
  | [], _ => rfl
  | x :: l, h => by
    have h1 := h x (List.mem_cons_self x l)
    have h2 := sumOver_eq_zero f l (fun st hst => h st (List.mem_cons_of_mem x hst))
    simp [sumOver, h1, h2]

theorem sumOver_eq_length (f : Student → Nat) :
    ∀ l : List Student, (∀ st ∈ l, f st = 1) → sumOver f l = l.length
  | [], _ => rfl
  | x :: l, h => by
    have h1 := h x (List.mem_cons_self x l)
    have h2 := sumOver_eq_length f l (fun st hst => h st (List.mem_cons_of_mem x hst))
    simp [sumOver, h1, h2]
    omega

theorem allDone_counts {s : State} (h : allDone s) :
    countPc atPost s.students = 0 ∧ countPc isPending s.students = 0 ∧
      countPc isDone s.students = s.students.length := by
  refine ⟨?_, ?_, ?_⟩
  · exact sumOver_eq_zero _ _ (fun st hst => by simp [h st hst, atPost])
  · exact sumOver_eq_zero _ _ (fun st hst => by simp [h st hst, isPending])
  · exact sumOver_eq_length _ _ (fun st hst => by simp [h st hst, isDone])

/-- Once every student has returned, nothing is left in the room or in the
semaphores and the TA is not in the middle of a service. -/
theorem quiet_of_allDone {cfg : Config} {s : State} (hi : Inv cfg s) (hd : allDone s) :
    s.waiting = 0 ∧ s.customers = 0 ∧ s.ta_ready = 0 ∧ taOwesPost s.ta = 0 ∧
      s.custPosts = s.seatings ∧ s.seatings = s.lowers ∧ s.lowers = s.readyPosts := by
  obtain ⟨c1, c2, c3⟩ := allDone_counts hd
  obtain ⟨h1, h2, h3, h4, h5, h6⟩ := hi.count
  have h7 : taOwesRelease s.ta ≤ taOwesPost s.ta := by
    cases s.ta <;> simp [taOwesRelease, taOwesPost]
  omega

/-- C1. Capacity invariant: for every configuration with `NUM_CHAIRS >= 0`, in
every state reachable by any interleaving of the TA and the student threads
the shared counter satisfies `0 <= waiting <= NUM_CHAIRS`. -/
theorem capacity_invariant (cfg : Config) (hc : 0 ≤ cfg.NUM_CHAIRS) (s : State)
    (hr : Reachable cfg s) : 0 ≤ s.waiting ∧ s.waiting ≤ cfg.NUM_CHAIRS := by
  have h := (inv_reachable hr).room
  refine ⟨h.nonneg, ?_⟩
  have := h.cap
  omega

theorem capacity_invariant_witness :
    (0 : Int) ≤ cfg312.NUM_CHAIRS ∧ Reachable cfg312 (after cfg312 sched312) ∧
      (after cfg312 sched312).waiting = 1 ∧
      (0 ≤ (after cfg312 sched312).waiting ∧
        (after cfg312 sched312).waiting ≤ cfg312.NUM_CHAIRS) :=
  ⟨by decide, reachable_after cfg312 sched312, by decide,
    capacity_invariant cfg312 (by decide) (after cfg312 sched312)
      (reachable_after cfg312 sched312)⟩

/-- C2. Safe closing: in every reachable state in which the TA has left its
loop, every student thread has returned and `students_active = 0`,
`waiting = 0`, both semaphores are 0, no student is blocked on `ta_ready`, and
no student can execute another statement (so `customers` is never posted
again).  The TA reads `waiting` (step `readW`) and `students_active` (step
`shutdownTest`) at two separate instants. -/
theorem safe_closing (cfg : Config) (s : State) (hr : Reachable cfg s)
    (hc : s.ta = .closed) :
    s.students_active = 0 ∧ allDone s ∧ s.waiting = 0 ∧ s.customers = 0 ∧
      s.ta_ready = 0 ∧ (∀ st ∈ s.students, st.pc ≠ .waitReady) ∧
      (∀ i, step cfg s (.stu i) = none) := by
  have hi := inv_reachable hr
  obtain ⟨hd, ha⟩ := hi.active.closed hc
  obtain ⟨q1, q2, q3, _⟩ := quiet_of_allDone hi hd
  refine ⟨ha, hd, q1, q2, q3, ?_, ?_⟩
  · intro st hst
    simp [hd st hst]
  · intro i
    simp only [step, student_thread_step]
    split
    · rfl
    · rename_i st hst
      simp [student_stmt, hd st (List.getElem?_mem hst)]

theorem safe_closing_witness :
    Reachable cfg111 (after cfg111 sched111) ∧ (after cfg111 sched111).ta = .closed ∧
      ((after cfg111 sched111).students_active = 0 ∧ allDone (after cfg111 sched111) ∧
        (after cfg111 sched111).waiting = 0 ∧ (after cfg111 sched111).customers = 0 ∧
        (after cfg111 sched111).ta_ready = 0 ∧
        (∀ st ∈ (after cfg111 sched111).students, st.pc ≠ .waitReady) ∧
        (∀ i, step cfg111 (after cfg111 sched111) (.stu i) = none)) :=
  ⟨reachable_after cfg111 sched111, by decide,
    safe_closing cfg111 (after cfg111 sched111) (reachable_after cfg111 sched111)
      (by decide)⟩

/-- C3. Pairing invariant: in every terminal state of a full run (all students
done and the TA closed) the number of `sem_post(&customers)` calls, of
executions of `waiting++`, of successful lowers of `customers` by the TA, of
`sem_post(&ta_ready)` calls and of completed service cycles are all equal, and
both semaphores have value 0. -/
theorem pairing_invariant (cfg : Config) (s : State) (hr : Reachable cfg s)
    (ht : terminated s) :
    s.custPosts = s.seatings ∧ s.seatings = s.lowers ∧ s.lowers = s.readyPosts ∧
      s.readyPosts = s.cycles ∧ s.customers = 0 ∧ s.ta_ready = 0 := by
  have hi := inv_reachable hr
  obtain ⟨_, q2, q3, _, q5, q6, q7⟩ := quiet_of_allDone hi ht.1
  have h5 := hi.count.cyc
  rw [ht.2] at h5
  simp [taHelping] at h5
  exact ⟨q5, q6, q7, h5, q2, q3⟩

theorem pairing_invariant_witness :
    Reachable cfg111 (after cfg111 sched111) ∧ terminated (after cfg111 sched111) ∧
      (after cfg111 sched111).cycles = 1 ∧
      ((after cfg111 sched111).custPosts = (after cfg111 sched111).seatings ∧
        (after cfg111 sched111).seatings = (after cfg111 sched111).lowers ∧
        (after cfg111 sched111).lowers = (after cfg111 sched111).readyPosts ∧
        (after cfg111 sched111).readyPosts = (after cfg111 sched111).cycles ∧
        (after cfg111 sched111).customers = 0 ∧ (after cfg111 sched111).ta_ready = 0) :=
  ⟨reachable_after cfg111 sched111, by decide, by decide,
    pairing_invariant cfg111 (after cfg111 sched111) (reachable_after cfg111 sched111)
      (by decide)⟩

/-- The shared counter `waiting` is written only by the thread that holds
`mtx`. -/
theorem waiting_under_lock {cfg : Config} {s s1 : State} {a : Action} (hi : Inv cfg s)
    (hs : step cfg s a = some s1) (hne : s1.waiting ≠ s.waiting) :
    (∃ r, a = .ta r ∧ s.mtx = some .ta) ∨ (∃ j, a = .stu j ∧ s.mtx = some (.stu j)) := by
  cases a with
  | ta r =>
    left
    refine ⟨r, rfl, ?_⟩
    have hm := hi.mutex.taMtx
    simp only [step] at hs
    cases hta : s.ta <;> simp only [ta_thread_step, hta] at hs <;>
      (try split at hs) <;> (try split at hs) <;>
      simp at hs <;> subst hs <;> simp at hne
    rw [hta] at hm
    exact hm.mp rfl
  | stu j =>
    right
    refine ⟨j, rfl, ?_⟩
    simp only [step, student_thread_step] at hs
    split at hs
    · simp at hs
    · rename_i st hj
      have hm := hi.mutex.stuMtx j st hj
      cases hpc : st.pc <;> simp only [student_stmt, hpc] at hs <;>
        (try split at hs) <;> simp at hs <;> subst hs <;>
        simp [State.setStu] at hne
      rw [hpc] at hm
      exact hm.mp rfl

/-- C4. Admission is a single non-blocking test-and-set.  First part: for every
state in which student `i` is about to execute the test on line 156, if
`waiting < NUM_CHAIRS` its next two statements take the seated branch and
increment `waiting` by exactly one; if `waiting >= NUM_CHAIRS` they take the
abandon branch, leave `waiting`, `customers` and `ta_ready` unchanged and lead
back to the loop head.  Neither statement can block.  Second part: while
student `i` holds the mutex no other thread changes `waiting`, so test and
increment act as one step. -/
theorem admission_test_and_set (cfg : Config) (i : Nat) :
    (∀ (s : State) (st : Student), s.students[i]? = some st → st.pc = .test →
      (s.waiting < cfg.NUM_CHAIRS →
        ∃ s1 s2, step cfg s (.stu i) = some s1 ∧ step cfg s1 (.stu i) = some s2 ∧
          s1.students[i]? = some { st with pc := .inc, attempts := st.attempts + 1 } ∧
          s1.waiting = s.waiting ∧
          s2.students[i]? = some { st with pc := .post, attempts := st.attempts + 1,
                                           seated := st.seated + 1 } ∧
          s2.waiting = s.waiting + 1 ∧ s2.customers = s.customers ∧
          s2.ta_ready = s.ta_ready) ∧
      (cfg.NUM_CHAIRS ≤ s.waiting →
        ∃ s1 s2, step cfg s (.stu i) = some s1 ∧ step cfg s1 (.stu i) = some s2 ∧
          s1.students[i]? = some { st with pc := .abandon, attempts := st.attempts + 1,
                                           abandoned := st.abandoned + 1 } ∧
          s1.waiting = s.waiting ∧ s1.customers = s.customers ∧
          s1.ta_ready = s.ta_ready ∧
          s2.students[i]? = some { st with pc := .loop, k := st.k + 1,
                                           attempts := st.attempts + 1,
                                           abandoned := st.abandoned + 1 } ∧
          s2.waiting = s.waiting ∧ s2.customers = s.customers ∧
          s2.ta_ready = s.ta_ready)) ∧
    (∀ (s : State) (st : Student), Reachable cfg s → s.students[i]? = some st →
      inCritical st.pc = true →
      ∀ (a : Action) (s1 : State), a ≠ .stu i → step cfg s a = some s1 →
        s1.waiting = s.waiting) := by
  constructor
  · intro s st hi hpc
    have hlt : i < s.students.length := (List.getElem?_eq_some.mp hi).1
    constructor
    · intro hw
      simp [step, student_thread_step, hi, student_stmt, hpc, hw, State.setStu, hlt]
    · intro hw
      have hw1 : ¬ s.waiting < cfg.NUM_CHAIRS := by omega
      simp [step, student_thread_step, hi, student_stmt, hpc, hw1, State.setStu, hlt]
  · intro s st hr hi hc a s1 ha hs
    by_contra hne
    have hinv := inv_reachable hr
    have hm := (hinv.mutex.stuMtx i st hi).mp hc
    rcases waiting_under_lock hinv hs hne with ⟨r, _, h2⟩ | ⟨j, h1, h2⟩
    · rw [hm] at h2
      simp at h2
    · rw [hm] at h2
      simp at h2
      subst h2
      exact ha h1

theorem admission_test_and_set_witness :
    (after cfg312 sched312).students[1]?
        = some { pc := .test, k := 1, attempts := 0, seated := 0, abandoned := 0 } ∧
      cfg312.NUM_CHAIRS ≤ (after cfg312 sched312).waiting ∧
      (∃ s1 s2, step cfg312 (after cfg312 sched312) (.stu 1) = some s1 ∧
          step cfg312 s1 (.stu 1) = some s2 ∧
          s1.students[1]? = some { pc := .abandon, k := 1, attempts := 1, seated := 0,
                                   abandoned := 1 } ∧
          s1.waiting = (after cfg312 sched312).waiting ∧
          s1.customers = (after cfg312 sched312).customers ∧
          s1.ta_ready = (after cfg312 sched312).ta_ready ∧
          s2.students[1]? = some { pc := .loop, k := 1 + 1, attempts := 1, seated := 0,
                                   abandoned := 1 } ∧
          s2.waiting = (after cfg312 sched312).waiting ∧
          s2.customers = (after cfg312 sched312).customers ∧
          s2.ta_ready = (after cfg312 sched312).ta_ready) ∧
      (step cfg312 (after cfg312 sched312) (.stu 2) ≠ none ∧
        ∀ s1, step cfg312 (after cfg312 sched312) (.stu 2) = some s1 →
          s1.waiting = (after cfg312 sched312).waiting) :=
  ⟨by decide, by decide,
    ((admission_test_and_set cfg312 1).1 (after cfg312 sched312)
      { pc := .test, k := 1, attempts := 0, seated := 0, abandoned := 0 }
      (by decide) rfl).2 (by decide),
    by decide,
    fun s1 h => (admission_test_and_set cfg312 1).2 (after cfg312 sched312)
      { pc := .test, k := 1, attempts := 0, seated := 0, abandoned := 0 }
      (reachable_after cfg312 sched312) (by decide) rfl (.stu 2) s1 (by decide) h⟩

theorem sumOver_add (f g : Student → Nat) :
    ∀ l : List Student, sumOver (fun st => f st + g st) l = sumOver f l + sumOver g l
  | [] => rfl
  | x :: l => by
    simp [sumOver, sumOver_add f g l]
    omega

theorem sumOver_const (f : Student → Nat) (c : Nat) :
    ∀ l : List Student, (∀ st ∈ l, f st = c) → sumOver f l = l.length * c
  | [], _ => by simp [sumOver]
  | x :: l, h => by
    have h1 := h x (List.mem_cons_self x l)
    have h2 := sumOver_const f c l (fun st hst => h st (List.mem_cons_of_mem x hst))
    simp [sumOver, h1, h2]
    ring

/-- What `StuInv` says about the number of attempts of one student. -/
theorem attempts_bound {cfg : Config} {st : Student} (h : StuInv cfg st)
    (hR : 0 ≤ cfg.REQS_PER_STUDENT) :
    (st.attempts : Int) ≤ cfg.REQS_PER_STUDENT ∧
      (st.pc = .done → (st.attempts : Int) = cfg.REQS_PER_STUDENT ∧
        st.attempts = st.seated + st.abandoned) := by
  obtain ⟨h1, h2, h3, h4, h5, h6⟩ := h
  cases hpc : st.pc <;>
    simp only [hpc, inAttempt, inBody, pastLoop] at h3 h4 h5 h6 <;>
    simp at h3 h4 h5 h6 <;> simp <;> omega

/-- When every student has returned, seatings and abandonments add up to
`NUM_STUDENTS * REQS_PER_STUDENT`. -/
theorem attempts_total {cfg : Config} {s : State} (hi : Inv cfg s)
    (hN : 0 ≤ cfg.NUM_STUDENTS) (hR : 0 ≤ cfg.REQS_PER_STUDENT) (hd : allDone s) :
    ((s.seatings + s.abandons : Nat) : Int) = cfg.NUM_STUDENTS * cfg.REQS_PER_STUDENT := by
  have hsum : sumOver (fun st => st.seated + st.abandoned) s.students
      = s.students.length * cfg.REQS_PER_STUDENT.toNat := by
    apply sumOver_const
    intro st hst
    have hb := (attempts_bound (hi.loc.each st hst) hR).2 (hd st hst)
    omega
  rw [sumOver_add, hi.loc.sumSeated, hi.loc.sumAbandoned, hi.active.len] at hsum
  have e1 : ((cfg.NUM_STUDENTS.toNat : Nat) : Int) = cfg.NUM_STUDENTS := Int.toNat_of_nonneg hN
  have e2 : ((cfg.REQS_PER_STUDENT.toNat : Nat) : Int) = cfg.REQS_PER_STUDENT :=
    Int.toNat_of_nonneg hR
  rw [hsum, Nat.cast_mul, e1, e2]

/-- C5. No retry on rejection: for every configuration (non-negative numbers of
students and requests) and every interleaving, each student has made as many
attempts as loop indices `k` it has used up (one attempt per index, whether
it was seated or abandoned), never more than `REQS_PER_STUDENT`, and exactly
`REQS_PER_STUDENT` once it is done; every attempt is either a seating or an
abandonment.  Hence when all students are done, seatings + abandonments =
`NUM_STUDENTS * REQS_PER_STUDENT` and seatings are at most that product; with
`NUM_CHAIRS >= 0`, `waiting` never exceeds `NUM_CHAIRS`. -/
theorem no_retry_on_rejection (cfg : Config) (hN : 0 ≤ cfg.NUM_STUDENTS)
    (hR : 0 ≤ cfg.REQS_PER_STUDENT) (s : State) (hr : Reachable cfg s) :
    (∀ st ∈ s.students,
      st.k + (if inAttempt st.pc then 1 else 0) = st.attempts + 1 ∧
      st.attempts = st.seated + st.abandoned + (if st.pc = .inc then 1 else 0) ∧
      (st.attempts : Int) ≤ cfg.REQS_PER_STUDENT ∧
      (st.pc = .done → (st.attempts : Int) = cfg.REQS_PER_STUDENT)) ∧
    (allDone s →
      ((s.seatings + s.abandons : Nat) : Int) = cfg.NUM_STUDENTS * cfg.REQS_PER_STUDENT ∧
      (s.seatings : Int) ≤ cfg.NUM_STUDENTS * cfg.REQS_PER_STUDENT) ∧
    (0 ≤ cfg.NUM_CHAIRS → s.waiting ≤ cfg.NUM_CHAIRS) := by
  have hi := inv_reachable hr
  refine ⟨?_, ?_, ?_⟩
  · intro st hst
    have h := hi.loc.each st hst
    have hb := attempts_bound h hR
    exact ⟨h.index, h.split, hb.1, fun hd => (hb.2 hd).1⟩
  · intro hd
    have e3 := attempts_total hi hN hR hd
    refine ⟨e3, ?_⟩
    rw [← e3]
    push_cast
    omega
  · intro hc
    have := hi.room.cap
    omega

theorem no_retry_on_rejection_witness :
    (0 : Int) ≤ cfg312.NUM_STUDENTS ∧ (0 : Int) ≤ cfg312.REQS_PER_STUDENT ∧
      allDone (after cfg312 sched312full) ∧
      (after cfg312 sched312full).seatings = 2 ∧
      (after cfg312 sched312full).abandons = 4 ∧
      (((after cfg312 sched312full).seatings + (after cfg312 sched312full).abandons : Nat)
          : Int) = 3 * 2 ∧
      ((after cfg312 sched312full).seatings : Int) ≤ 3 * 2 ∧
      (after cfg312 sched312full).waiting ≤ 1 :=
  ⟨by decide, by decide, by decide, by decide, by decide,
    ((no_retry_on_rejection cfg312 (by decide) (by decide) (after cfg312 sched312full)
      (reachable_after cfg312 sched312full)).2.1 (by decide)).1,
    ((no_retry_on_rejection cfg312 (by decide) (by decide) (after cfg312 sched312full)
      (reachable_after cfg312 sched312full)).2.1 (by decide)).2,
    (no_retry_on_rejection cfg312 (by decide) (by decide) (after cfg312 sched312full)
      (reachable_after cfg312 sched312full)).2.2 (by decide)⟩

/-- Without chairs nobody is ever seated: `waiting++` is never executed and no
student is between `waiting++` and the return of `sem_wait(&ta_ready)`. -/
theorem no_chairs_step {cfg : Config} {s s1 : State} {a : Action} (hi : Inv cfg s)
    (hc : cfg.NUM_CHAIRS ≤ 0) (hz : s.seatings = 0 ∧ countPc isPending s.students = 0)
    (hs : step cfg s a = some s1) :
    s1.seatings = 0 ∧ countPc isPending s1.students = 0 := by
  obtain ⟨z1, z2⟩ := hz
  cases a with
  | ta r =>
    simp only [step] at hs
    cases hta : s.ta <;> simp only [ta_thread_step, hta] at hs <;>
      (try split at hs) <;> (try split at hs) <;>
      simp at hs <;> subst hs <;> exact ⟨z1, z2⟩
  | stu i =>
    simp only [step, student_thread_step] at hs
    split at hs
    · simp at hs
    · rename_i st hst
      have g := countPc_ge isPending _ _ _ hst
      have hroom := hi.room.incRoom i st hst
      have hnn := hi.room.nonneg
      cases hpc : st.pc <;> simp only [student_stmt, hpc] at hs <;>
        (try split at hs) <;> simp at hs <;> subst hs <;>
        simp only [State.setStu, countPc_set _ _ _ _ _ hst, hpc, isPending] at * <;>
        simp at * <;> omega

theorem no_chairs {cfg : Config} {s : State} (hc : cfg.NUM_CHAIRS ≤ 0)
    (hr : Reachable cfg s) : s.seatings = 0 ∧ countPc isPending s.students = 0 := by
  induction hr with
  | init => simp [init, countPc, sumOver_replicate, isPending]
  | step a hr1 hs ih => exact no_chairs_step (inv_reachable hr1) hc ih hs

/-- Deadlock freedom: in a state that satisfies the invariants and is not
terminal, some thread can execute its next statement, and this does not rely
on a failing `sem_timedwait`. -/
theorem progress {cfg : Config} {s : State} (hi : Inv cfg s) (hn : ¬ terminated s) :
    ∃ a, a ≠ Action.ta .failed ∧ step cfg s a ≠ none := by
  have hlockfree : s.mtx = none → (s.ta = .lockCheck ∨ s.ta = .lockServe) →
      step cfg s (.ta .timedOut) ≠ none := by
    intro hm hta
    rcases hta with hta | hta <;> simp [step, ta_thread_step, hta, hm]
  have hlocked : ∀ t, s.mtx = some t → (s.ta = .lockCheck ∨ s.ta = .lockServe) →
      ∃ a, a ≠ Action.ta .failed ∧ step cfg s a ≠ none := by
    intro t hm hta
    cases t with
    | ta =>
      have h1 := hi.mutex.taMtx.mpr hm
      rcases hta with hta | hta <;> simp [hta, taCritical] at h1
    | stu j =>
      have hlt := hi.mutex.owner j hm
      have hst : s.students[j]? = some s.students[j] := List.getElem?_eq_getElem hlt
      have hcr := (hi.mutex.stuMtx j _ hst).mpr hm
      refine ⟨.stu j, by simp, ?_⟩
      simp only [step, student_thread_step, hst]
      cases hpc : (s.students[j]).pc <;> simp [hpc, inCritical] at hcr <;>
        simp only [student_stmt, hpc] <;> (try split) <;> simp
  cases hta : s.ta with
  | closed => exact absurd ⟨(hi.active.closed hta).1, hta⟩ hn
  | wait =>
    by_cases hc : s.customers = 0
    · exact ⟨.ta .timedOut, by simp, by simp [step, ta_thread_step, hta, hc]⟩
    · have hc1 : 0 < s.customers := Nat.pos_of_ne_zero hc
      exact ⟨.ta .acquired, by simp, by simp [step, ta_thread_step, hta, hc1]⟩
  | lockCheck =>
    cases hm : s.mtx with
    | none => exact ⟨.ta .timedOut, by simp, hlockfree hm (Or.inl hta)⟩
    | some t => exact hlocked t hm (Or.inl hta)
  | lockServe =>
    cases hm : s.mtx with
    | none => exact ⟨.ta .timedOut, by simp, hlockfree hm (Or.inr hta)⟩
    | some t => exact hlocked t hm (Or.inr hta)
  | readW => exact ⟨.ta .timedOut, by simp, by simp [step, ta_thread_step, hta]⟩
  | unlockCheck => exact ⟨.ta .timedOut, by simp, by simp [step, ta_thread_step, hta]⟩
  | shutdownTest =>
    refine ⟨.ta .timedOut, by simp, ?_⟩
    simp only [step, ta_thread_step, hta]
    split <;> simp
  | release => exact ⟨.ta .timedOut, by simp, by simp [step, ta_thread_step, hta]⟩
  | unlockServe => exact ⟨.ta .timedOut, by simp, by simp [step, ta_thread_step, hta]⟩
  | post => exact ⟨.ta .timedOut, by simp, by simp [step, ta_thread_step, hta]⟩
  | help => exact ⟨.ta .timedOut, by simp, by simp [step, ta_thread_step, hta]⟩

/-- A terminal state has no enabled step. -/
theorem terminated_stuck {cfg : Config} {s : State} (ht : terminated s) (a : Action) :
    step cfg s a = none := by
  cases a with
  | ta r => simp [step, ta_thread_step, ht.2]
  | stu i =>
    simp only [step, student_thread_step]
    split
    · rfl
    · rename_i st hst
      simp [student_stmt, ht.1 st (List.getElem?_mem hst)]

/-- C6. Degenerate capacity: with `NUM_CHAIRS = 0`, in every reachable state
`waiting` is 0, nobody has been seated, neither semaphore has been posted or
lowered, no student waits on `ta_ready`, every attempt made so far was
abandoned; and there is no deadlock: a state that is not terminal has an
enabled step (not relying on a failing wait), and a state without enabled
step has all students done and the TA closed. -/
theorem degenerate_capacity (cfg : Config) (hc : cfg.NUM_CHAIRS = 0) (s : State)
    (hr : Reachable cfg s) :
    s.waiting = 0 ∧ s.seatings = 0 ∧ s.custPosts = 0 ∧ s.readyPosts = 0 ∧
      s.customers = 0 ∧ s.ta_ready = 0 ∧ s.lowers = 0 ∧ s.cycles = 0 ∧
      (∀ st ∈ s.students, st.pc ≠ .waitReady ∧ st.seated = 0 ∧
        st.abandoned = st.attempts) ∧
      (¬ terminated s → ∃ a, a ≠ Action.ta .failed ∧ step cfg s a ≠ none) ∧
      ((∀ a, step cfg s a = none) → terminated s) := by
  have hi := inv_reachable hr
  obtain ⟨z1, z2⟩ := no_chairs (le_of_eq hc) hr
  obtain ⟨h1, h2, h3, h4, h5, h6⟩ := hi.count
  have hcap := hi.room.cap
  have hnn := hi.room.nonneg
  have hw : s.waiting = 0 := by
    rw [hc] at hcap
    simp at hcap
    omega
  refine ⟨hw, z1, by omega, by omega, by omega, by omega, by omega, by omega, ?_, ?_, ?_⟩
  · intro st hst
    obtain ⟨i, hget⟩ := List.mem_iff_getElem?.mp hst
    have g1 := countPc_ge isPending _ _ _ hget
    have g2 := sumOver_ge (fun st => st.seated) _ _ _ hget
    have g3 := hi.room.incRoom i st hget
    have g4 := (hi.loc.each st hst).split
    rw [hi.loc.sumSeated, z1] at g2
    rw [z2] at g1
    simp at g2
    refine ⟨?_, g2, ?_⟩
    · intro hpc
      simp [hpc, isPending] at g1
    · have hne : st.pc ≠ .inc := by
        intro hpc
        have := g3 hpc
        omega
      simp [hne] at g4
      omega
  · exact progress hi
  · intro hstuck
    by_contra hnt
    obtain ⟨a, _, ha⟩ := progress hi hnt
    exact ha (hstuck a)

theorem degenerate_capacity_witness :
    cfg201.NUM_CHAIRS = 0 ∧ terminated (after cfg201 sched201) ∧
      (after cfg201 sched201).abandons = 2 ∧
      ((after cfg201 sched201).waiting = 0 ∧ (after cfg201 sched201).seatings = 0 ∧
        (after cfg201 sched201).custPosts = 0 ∧ (after cfg201 sched201).readyPosts = 0 ∧
        (after cfg201 sched201).customers = 0 ∧ (after cfg201 sched201).ta_ready = 0 ∧
        (after cfg201 sched201).lowers = 0 ∧ (after cfg201 sched201).cycles = 0 ∧
        (∀ st ∈ (after cfg201 sched201).students, st.pc ≠ .waitReady ∧ st.seated = 0 ∧
          st.abandoned = st.attempts) ∧
        (¬ terminated (after cfg201 sched201) →
          ∃ a, a ≠ Action.ta .failed ∧ step cfg201 (after cfg201 sched201) a ≠ none) ∧
        ((∀ a, step cfg201 (after cfg201 sched201) a = none) →
          terminated (after cfg201 sched201))) :=
  ⟨rfl, by decide, by decide,
    degenerate_capacity cfg201 rfl (after cfg201 sched201)
      (reachable_after cfg201 sched201)⟩

theorem reachable_from {cfg : Config} {s s1 : State} (hr : Reachable cfg s)
    (h : ReachableFrom cfg s s1) : Reachable cfg s1 := by
  induction h with
  | refl => exact hr
  | step a _ hs ih => exact Reachable.step a ih hs

/-- Once every student has returned, the mutex is free unless the TA holds it. -/
theorem mtx_of_allDone {cfg : Config} {s : State} (hi : Inv cfg s) (hd : allDone s)
    (hta : taCritical s.ta = false) : s.mtx = none := by
  cases hm : s.mtx with
  | none => rfl
  | some t =>
    cases t with
    | ta =>
      have := hi.mutex.taMtx.mpr hm
      simp [hta] at this
    | stu j =>
      have hlt := hi.mutex.owner j hm
      have hst : s.students[j]? = some s.students[j] := List.getElem?_eq_getElem hlt
      have hcr := (hi.mutex.stuMtx j _ hst).mpr hm
      have hdone := hd _ (List.getElem?_mem hst)
      simp [hdone, inCritical] at hcr

/-- Once every student has returned (and `NUM_STUDENTS >= 0`), the counter
`students_active` is 0. -/
theorem active_of_allDone {cfg : Config} {s : State} (hi : Inv cfg s)
    (hN : 0 ≤ cfg.NUM_STUDENTS) (hd : allDone s) : s.students_active = 0 := by
  have h1 := hi.active.active
  have h2 := hi.active.len
  have h3 := (allDone_counts hd).2.2
  omega

/-- After the last student has returned only the TA runs, and each of its
statements brings it closer to closing. -/
theorem allDone_step {cfg : Config} {s s1 : State} {a : Action} (hi : Inv cfg s)
    (hN : 0 ≤ cfg.NUM_STUDENTS) (hd : allDone s) (hs : step cfg s a = some s1) :
    allDone s1 ∧ s1.lowers = s.lowers ∧ s1.readyPosts = s.readyPosts ∧
      taDistance s1.ta < taDistance s.ta ∧ ∃ r, a = .ta r := by
  obtain ⟨q1, q2, q3, q4, _⟩ := quiet_of_allDone hi hd
  have hact := active_of_allDone hi hN hd
  have hw := hi.room.wRead
  cases a with
  | stu i =>
    simp only [step, student_thread_step] at hs
    split at hs
    · simp at hs
    · rename_i st hst
      simp [student_stmt, hd st (List.getElem?_mem hst)] at hs
  | ta r =>
    simp only [step] at hs
    cases hta : s.ta with
    | wait =>
      cases r <;> simp [ta_thread_step, hta, q2] at hs <;> subst hs <;>
        exact ⟨hd, rfl, rfl, by simp [taDistance, hta], _, rfl⟩
    | lockCheck =>
      simp only [ta_thread_step, hta] at hs
      split at hs <;> simp at hs
      subst hs
      exact ⟨hd, rfl, rfl, by simp [taDistance, hta], _, rfl⟩
    | readW =>
      simp [ta_thread_step, hta] at hs
      subst hs
      exact ⟨hd, rfl, rfl, by simp [taDistance, hta], _, rfl⟩
    | unlockCheck =>
      simp [ta_thread_step, hta] at hs
      subst hs
      exact ⟨hd, rfl, rfl, by simp [taDistance, hta], _, rfl⟩
    | shutdownTest =>
      have hw0 := hw (Or.inr hta)
      have hw1 : s.w = 0 := by omega
      simp [ta_thread_step, hta, hact, hw1] at hs
      subst hs
      exact ⟨hd, rfl, rfl, by simp [taDistance, hta], _, rfl⟩
    | lockServe => simp [hta, taOwesPost] at q4
    | release => simp [hta, taOwesPost] at q4
    | unlockServe => simp [hta, taOwesPost] at q4
    | post => simp [hta, taOwesPost] at q4
    | help =>
      simp [ta_thread_step, hta] at hs
      subst hs
      exact ⟨hd, rfl, rfl, by simp [taDistance, hta], _, rfl⟩
    | closed => simp [ta_thread_step, hta] at hs

theorem allDone_from {cfg : Config} {s s1 : State} (hr : Reachable cfg s)
    (hN : 0 ≤ cfg.NUM_STUDENTS) (hd : allDone s) (h : ReachableFrom cfg s s1) :
    allDone s1 ∧ s1.lowers = s.lowers ∧ s1.readyPosts = s.readyPosts := by
  induction h with
  | refl => exact ⟨hd, rfl, rfl⟩
  | step a h1 hs ih =>
    obtain ⟨i1, i2, i3⟩ := ih
    obtain ⟨j1, j2, j3, _⟩ := allDone_step (inv_reachable (reachable_from hr h1)) hN i1 hs
    exact ⟨j1, by omega, by omega⟩

theorem allDone_run {cfg : Config} (hN : 0 ≤ cfg.NUM_STUDENTS) :
    ∀ (acts : List Action) {s s1 : State}, Reachable cfg s → allDone s →
      run cfg s acts = some s1 → acts.length + taDistance s1.ta ≤ taDistance s.ta
  | [], s, s1, _, _, h => by
    simp [run] at h
    subst h
    simp
  | a :: rest, s, s1, hr, hd, h => by
    simp only [run] at h
    split at h
    · simp at h
    · rename_i s2 hs
      obtain ⟨j1, _, _, j4, _⟩ := allDone_step (inv_reachable hr) hN hd hs
      have := allDone_run hN rest (Reachable.step a hr hs) j1 h
      simp only [List.length_cons]
      omega

/-- C7. Termination after the last producer: from every reachable state in
which every student is done (then `waiting` is 0 as well), in every state
reached later the number of successful lowers of `customers` is unchanged, at
most one more service cycle has been completed, and `waiting` is still 0; a
lower is impossible when the TA is idle, and a timed-out wait from there is
followed by the four statements of the shutdown check and ends in `closed`;
every schedule from the state has at most 6 steps, each step bringing the TA
closer to `closed`; and the TA is never stuck before it has closed. -/
theorem termination_after_last_producer (cfg : Config) (hN : 0 ≤ cfg.NUM_STUDENTS)
    (s : State) (hr : Reachable cfg s) (hd : allDone s) :
    s.waiting = 0 ∧
    (∀ s1, ReachableFrom cfg s s1 →
      s1.lowers = s.lowers ∧ allDone s1 ∧ s1.waiting = 0 ∧ s1.cycles ≤ s.cycles + 1) ∧
    (∀ s1, ReachableFrom cfg s s1 → s1.ta = .wait →
      step cfg s1 (.ta .acquired) = none ∧
      ∃ s2, run cfg s1 (List.replicate 5 (.ta .timedOut)) = some s2 ∧ s2.ta = .closed) ∧
    (∀ acts s1, run cfg s acts = some s1 →
      acts.length + taDistance s1.ta ≤ taDistance s.ta ∧ taDistance s.ta ≤ 6) ∧
    (∀ s1, ReachableFrom cfg s s1 → s1.ta ≠ .closed →
      ∃ r, r ≠ WaitResult.failed ∧ step cfg s1 (.ta r) ≠ none) := by
  have hi := inv_reachable hr
  refine ⟨(quiet_of_allDone hi hd).1, ?_, ?_, ?_, ?_⟩
  · intro s1 h1
    obtain ⟨d1, d2, d3⟩ := allDone_from hr hN hd h1
    have hi1 := inv_reachable (reachable_from hr h1)
    have c0 := hi.count.cyc
    have c1 := hi1.count.cyc
    have t1 : taHelping s1.ta ≤ 1 := by cases s1.ta <;> simp [taHelping]
    have t0 : taHelping s.ta ≤ 1 := by cases s.ta <;> simp [taHelping]
    exact ⟨d2, d1, (quiet_of_allDone hi1 d1).1, by omega⟩
  · intro s1 h1 hta
    obtain ⟨d1, _, _⟩ := allDone_from hr hN hd h1
    have hi1 := inv_reachable (reachable_from hr h1)
    obtain ⟨q1, q2, _⟩ := quiet_of_allDone hi1 d1
    have hm := mtx_of_allDone hi1 d1 (by simp [hta, taCritical])
    have hact := active_of_allDone hi1 hN d1
    constructor
    · simp [step, ta_thread_step, hta, q2]
    · simp [List.replicate, run, step, ta_thread_step, hta, q2, hm, q1, hact]
  · intro acts s1 hrun
    refine ⟨allDone_run hN acts hr hd hrun, ?_⟩
    have q4 := (quiet_of_allDone hi hd).2.2.2.1
    cases hta : s.ta <;> simp [hta, taOwesPost] at q4 <;> simp [taDistance]
  · intro s1 h1 hnc
    obtain ⟨d1, _, _⟩ := allDone_from hr hN hd h1
    have hi1 := inv_reachable (reachable_from hr h1)
    have hnt : ¬ terminated s1 := fun ht => hnc ht.2
    obtain ⟨a, ha, hstep⟩ := progress hi1 hnt
    cases a with
    | ta r => exact ⟨r, fun h => ha (by rw [h]), hstep⟩
    | stu i =>
      exfalso
      apply hstep
      simp only [step, student_thread_step]
      split
      · rfl
      · rename_i st hst
        simp [student_stmt, d1 st (List.getElem?_mem hst)]

theorem termination_after_last_producer_witness :
    (0 : Int) ≤ cfg111.NUM_STUDENTS ∧ allDone (after cfg111 sched111served) ∧
      (after cfg111 sched111served).ta = .help ∧
      run cfg111 (after cfg111 sched111served) (List.replicate 6 (.ta .timedOut))
        = some (after cfg111 sched111) ∧
      (after cfg111 sched111).ta = .closed ∧
      (after cfg111 sched111served).waiting = 0 ∧
      (6 + taDistance (after cfg111 sched111).ta
          ≤ taDistance (after cfg111 sched111served).ta ∧
        taDistance (after cfg111 sched111served).ta ≤ 6) :=
  ⟨by decide, by decide, by decide, by decide, by decide,
    (termination_after_last_producer cfg111 (by decide) (after cfg111 sched111served)
      (reachable_after cfg111 sched111served) (by decide)).1,
    (termination_after_last_producer cfg111 (by decide) (after cfg111 sched111served)
      (reachable_after cfg111 sched111served) (by decide)).2.2.2.1
      (List.replicate 6 (.ta .timedOut)) (after cfg111 sched111) (by decide)⟩

/-- The room never holds more students than have been seated so far. -/
theorem waiting_le_seatings {cfg : Config} {s : State} (hi : Inv cfg s) :
    s.waiting ≤ s.seatings := by
  obtain ⟨h1, h2, h3, h4, h5, h6⟩ := hi.count
  have h7 : taOwesRelease s.ta ≤ taOwesPost s.ta := by
    cases s.ta <;> simp [taOwesRelease, taOwesPost]
  omega

/-- In the scenario 1/1/1 the only student always finds the chair free. -/
theorem scenario_no_abandon_step {s s1 : State} {a : Action} (hi : Inv cfg111 s)
    (hz : s.abandons = 0) (hs : step cfg111 s a = some s1) : s1.abandons = 0 := by
  cases a with
  | ta r =>
    simp only [step] at hs
    cases hta : s.ta <;> simp only [ta_thread_step, hta] at hs <;>
      (try split at hs) <;> (try split at hs) <;>
      simp at hs <;> subst hs <;> exact hz
  | stu i =>
    simp only [step, student_thread_step] at hs
    split at hs
    · simp at hs
    · rename_i st hst
      have hlen : s.students.length = 1 := by
        have := hi.active.len
        simpa [cfg111] using this
      obtain ⟨x, hx⟩ := List.length_eq_one.mp hlen
      have hmem : st ∈ s.students := List.getElem?_mem hst
      have hst1 : st = x := by
        rw [hx] at hmem
        simpa using hmem
      have hsum := hi.loc.sumSeated
      rw [hx] at hsum
      simp only [sumOver, ← hst1] at hsum
      have hw := waiting_le_seatings hi
      obtain ⟨k1, k2, k3, k4, k5, k6⟩ := hi.loc.each st hmem
      cases hpc : st.pc <;> simp only [student_stmt, hpc] at hs <;>
        (try split at hs) <;> simp at hs <;> subst hs <;>
        simp only [State.setStu] <;> (try exact hz)
      rename_i hfull
      simp only [hpc, inAttempt, inBody] at k3 k4 k5
      simp [cfg111] at k3 k4 k5 hfull
      omega

theorem scenario_no_abandon {s : State} (hr : Reachable cfg111 s) : s.abandons = 0 := by
  induction hr with
  | init => rfl
  | step a hr1 hs ih => exact scenario_no_abandon_step (inv_reachable hr1) ih hs

/-- C8. Scenario 1/1/1: with one student, one chair and one request, every
complete run (a reachable state in which no thread can execute another
statement, under any interleaving) has all threads terminated, exactly one
successful seating, no abandonment, exactly one service cycle, the TA closed,
and `main` returns 0. -/
theorem scenario_one_one_one (s : State) (hr : Reachable cfg111 s)
    (hstuck : ∀ a, step cfg111 s a = none) :
    terminated s ∧ s.seatings = 1 ∧ s.abandons = 0 ∧ s.cycles = 1 ∧ s.lowers = 1 ∧
      s.ta = .closed ∧ main_exit s = some 0 := by
  have hi := inv_reachable hr
  have ht : terminated s := by
    by_contra hnt
    obtain ⟨a, _, ha⟩ := progress hi hnt
    exact ha (hstuck a)
  have hab := scenario_no_abandon hr
  have htot := attempts_total hi (by decide) (by decide) ht.1
  obtain ⟨_, _, _, _, _, q6, q7⟩ := quiet_of_allDone hi ht.1
  have h5 := hi.count.cyc
  rw [ht.2] at h5
  simp [taHelping] at h5
  simp [cfg111, hab] at htot
  refine ⟨ht, htot, hab, by omega, by omega, ht.2, ?_⟩
  simp [main_exit, ht]

theorem scenario_one_one_one_witness :
    Reachable cfg111 (after cfg111 sched111) ∧
      (∀ a, step cfg111 (after cfg111 sched111) a = none) ∧
      (terminated (after cfg111 sched111) ∧ (after cfg111 sched111).seatings = 1 ∧
        (after cfg111 sched111).abandons = 0 ∧ (after cfg111 sched111).cycles = 1 ∧
        (after cfg111 sched111).lowers = 1 ∧ (after cfg111 sched111).ta = .closed ∧
        main_exit (after cfg111 sched111) = some 0) :=
  ⟨reachable_after cfg111 sched111, terminated_stuck (by decide),
    scenario_one_one_one (after cfg111 sched111) (reachable_after cfg111 sched111)
      (terminated_stuck (by decide))⟩

/-! ## `parse_args` -/

theorem parse_loop_values :
    ∀ (opts : List Opt) (cfg : Config), onlyValues opts = true →
      parse_loop cfg opts = .ok
        { NUM_STUDENTS := lastS cfg.NUM_STUDENTS opts,
          NUM_CHAIRS := lastC cfg.NUM_CHAIRS opts,
          REQS_PER_STUDENT := lastR cfg.REQS_PER_STUDENT opts }
  | [], cfg, _ => by simp [parse_loop, lastS, lastC, lastR]
  | .s v :: rest, cfg, h => by
    simp only [onlyValues] at h
    simp [parse_loop, lastS, lastC, lastR, parse_loop_values rest _ h]
  | .c v :: rest, cfg, h => by
    simp only [onlyValues] at h
    simp [parse_loop, lastS, lastC, lastR, parse_loop_values rest _ h]
  | .r v :: rest, cfg, h => by
    simp only [onlyValues] at h
    simp [parse_loop, lastS, lastC, lastR, parse_loop_values rest _ h]
  | .h :: rest, cfg, h => by simp [onlyValues] at h
  | .unknown :: rest, cfg, h => by simp [onlyValues] at h

theorem clamp_eq (cfg : Config) :
    clamp cfg = { NUM_STUDENTS := max 1 cfg.NUM_STUDENTS, NUM_CHAIRS := max 0 cfg.NUM_CHAIRS,
                  REQS_PER_STUDENT := max 1 cfg.REQS_PER_STUDENT } := by
  obtain ⟨n, c, r⟩ := cfg
  simp only [clamp]
  split <;> split <;> split <;> simp_all <;> omega

/-- C9. Configuration clamping: for every sequence of `-s`, `-c`, `-r` options
(the last value of a flag counts, 5, 3, 3 are the defaults of absent flags),
`parse_args` returns normally and leaves `NUM_STUDENTS = max(1, s)`,
`NUM_CHAIRS = max(0, c)`, `REQS_PER_STUDENT = max(1, r)`.  The result is a
valid configuration, valid values are unchanged, and no valid value is nearer
to the supplied one than the clamped one. -/
theorem parse_args_clamps (opts : List Opt) (h : onlyValues opts = true) :
    parse_args opts = .ok
        { NUM_STUDENTS := max 1 (lastS 5 opts), NUM_CHAIRS := max 0 (lastC 3 opts),
          REQS_PER_STUDENT := max 1 (lastR 3 opts) } ∧
      (1 ≤ lastS 5 opts → max 1 (lastS 5 opts) = lastS 5 opts) ∧
      (0 ≤ lastC 3 opts → max 0 (lastC 3 opts) = lastC 3 opts) ∧
      (1 ≤ lastR 3 opts → max 1 (lastR 3 opts) = lastR 3 opts) ∧
      (∀ v : Int, 1 ≤ v → |max 1 (lastS 5 opts) - lastS 5 opts| ≤ |v - lastS 5 opts|) ∧
      (∀ v : Int, 0 ≤ v → |max 0 (lastC 3 opts) - lastC 3 opts| ≤ |v - lastC 3 opts|) ∧
      (∀ v : Int, 1 ≤ v → |max 1 (lastR 3 opts) - lastR 3 opts| ≤ |v - lastR 3 opts|) := by
  have near : ∀ (lo x v : Int), lo ≤ v → |max lo x - x| ≤ |v - x| := by
    intro lo x v hv
    rcases le_total lo x with hx | hx
    · rw [max_eq_right hx]
      simp
    · rw [max_eq_left hx, abs_of_nonneg (by omega), abs_of_nonneg (by omega)]
      omega
  refine ⟨?_, fun h1 => max_eq_right h1, fun h1 => max_eq_right h1,
    fun h1 => max_eq_right h1, fun v hv => near 1 _ v hv, fun v hv => near 0 _ v hv,
    fun v hv => near 1 _ v hv⟩
  unfold parse_args
  rw [parse_loop_values opts defaults h]
  simp [clamp_eq, defaults]

theorem parse_args_clamps_witness :
    onlyValues [.s (-4), .c (-1), .r 0, .s (-7)] = true ∧
      parse_args [.s (-4), .c (-1), .r 0, .s (-7)]
        = .ok { NUM_STUDENTS := 1, NUM_CHAIRS := 0, REQS_PER_STUDENT := 1 } ∧
      parse_args [.c 4] = .ok { NUM_STUDENTS := 5, NUM_CHAIRS := 4, REQS_PER_STUDENT := 3 } :=
  ⟨rfl, (parse_args_clamps [.s (-4), .c (-1), .r 0, .s (-7)] rfl).1,
    (parse_args_clamps [.c 4] rfl).1⟩

/-! ## The active-producer counter -/

theorem active_mono_step {cfg : Config} {s s1 : State} {a : Action}
    (hs : step cfg s a = some s1) :
    s1.students_active = s.students_active ∨
      ∃ i st, a = .stu i ∧ s.students[i]? = some st ∧ st.pc = .finish ∧
        s1.students[i]? = some { st with pc := .done } ∧
        s1.students_active = s.students_active - 1 := by
  cases a with
  | ta r =>
    left
    simp only [step] at hs
    cases hta : s.ta <;> simp only [ta_thread_step, hta] at hs <;>
      (try split at hs) <;> (try split at hs) <;>
      simp at hs <;> subst hs <;> rfl
  | stu i =>
    simp only [step, student_thread_step] at hs
    split at hs
    · simp at hs
    · rename_i st hst
      have hlt : i < s.students.length := (List.getElem?_eq_some.mp hst).1
      cases hpc : st.pc <;> simp only [student_stmt, hpc] at hs <;>
        (try split at hs) <;> simp at hs <;> subst hs <;>
        (try (left; rfl))
      right
      exact ⟨i, st, rfl, hst, hpc, by simp [State.setStu, hlt], rfl⟩

theorem active_mono_from {cfg : Config} {s s1 : State} (h : ReachableFrom cfg s s1) :
    s1.students_active ≤ s.students_active := by
  induction h with
  | refl => exact le_refl _
  | step a _ hs ih =>
    rcases active_mono_step hs with h1 | ⟨_, _, _, _, _, _, h1⟩ <;> omega

/-- C10. Active-producer counter: in every reachable state (of a configuration
with `NUM_STUDENTS >= 0`) `students_active` equals `NUM_STUDENTS` minus the
number of student threads that have returned; it is never negative; every
step either leaves it unchanged or is the statement on line 178 of a student
that thereby becomes done, decrementing it by one; a student that is done
executes nothing more; the counter never increases, and once 0 it stays 0. -/
theorem active_producer_counter (cfg : Config) (hN : 0 ≤ cfg.NUM_STUDENTS) (s : State)
    (hr : Reachable cfg s) :
    s.students_active = cfg.NUM_STUDENTS - countPc isDone s.students ∧
      0 ≤ s.students_active ∧
      (∀ a s1, step cfg s a = some s1 →
        s1.students_active = s.students_active ∨
          ∃ i st, a = .stu i ∧ s.students[i]? = some st ∧ st.pc = .finish ∧
            s1.students[i]? = some { st with pc := .done } ∧
            s1.students_active = s.students_active - 1) ∧
      (∀ i st, s.students[i]? = some st → st.pc = .done → step cfg s (.stu i) = none) ∧
      (∀ s1, ReachableFrom cfg s s1 →
        s1.students_active ≤ s.students_active ∧
          (s.students_active = 0 → s1.students_active = 0)) := by
  have hi := inv_reachable hr
  have nonneg : ∀ s1, Reachable cfg s1 → 0 ≤ s1.students_active := by
    intro s1 hr1
    have hi1 := inv_reachable hr1
    have h1 := hi1.active.active
    have h2 := hi1.active.len
    have h3 := countPc_le_length isDone s1.students
    omega
  refine ⟨?_, nonneg s hr, fun a s1 hs => active_mono_step hs, ?_, ?_⟩
  · have h1 := hi.active.active
    omega
  · intro i st hst hpc
    simp [step, student_thread_step, hst, student_stmt, hpc]
  · intro s1 h1
    have hm := active_mono_from h1
    have hn := nonneg s1 (reachable_from hr h1)
    exact ⟨hm, fun hz => by omega⟩

theorem active_producer_counter_witness :
    (0 : Int) ≤ cfg312.NUM_STUDENTS ∧
      (after cfg312 sched312full).students_active = 0 ∧
      (after cfg312 sched312).students_active = 3 ∧
      (after cfg312 sched312full).students_active
        = cfg312.NUM_STUDENTS - countPc isDone (after cfg312 sched312full).students ∧
      (0 : Int) ≤ (after cfg312 sched312full).students_active :=
  ⟨by decide, by decide, by decide,
    (active_producer_counter cfg312 (by decide) (after cfg312 sched312full)
      (reachable_after cfg312 sched312full)).1,
    (active_producer_counter cfg312 (by decide) (after cfg312 sched312full)
      (reachable_after cfg312 sched312full)).2.1⟩

/-! ## Agreement between `waiting` and `customers` -/

/-- The counter `waiting` is the value of `customers`, plus one for a student
that has incremented `waiting` and not yet posted, plus one for a lower of the
TA that has not yet been followed by its decrement. -/
theorem waiting_eq {cfg : Config} {s : State} (hi : Inv cfg s) :
    s.waiting = s.customers + countPc atPost s.students + taOwesRelease s.ta := by
  obtain ⟨h1, h2, h3, h4, h5, h6⟩ := hi.count
  omega

/-- While no student holds the mutex, no student is between `waiting++` and
`sem_post(&customers)`. -/
theorem no_post_pending {cfg : Config} {s : State} (hi : Inv cfg s)
    (hm : ∀ i, s.mtx ≠ some (.stu i)) : countPc atPost s.students = 0 := by
  apply sumOver_eq_zero
  intro st hst
  obtain ⟨i, hget⟩ := List.mem_iff_getElem?.mp hst
  have h1 := hi.mutex.stuMtx i st hget
  have h2 : ¬ inCritical st.pc = true := fun hc => hm i (h1.mp hc)
  cases hpc : st.pc <;> simp [hpc, inCritical, atPost] at h2 ⊢

/-- The claim C11 fails on the code: no configuration and no interleaving
brings the TA to its release (between the successful lower of `customers` and
the guarded decrement) while `waiting` is 0. -/
theorem release_at_zero_unreachable :
    ¬ ∃ (cfg : Config) (s : State), Reachable cfg s ∧
        (s.ta = .lockServe ∨ s.ta = .release) ∧ s.waiting = 0 := by
  rintro ⟨cfg, s, hr, hta, hw⟩
  have h := waiting_eq (inv_reachable hr)
  rcases hta with hta | hta <;> rw [hta] at h <;> simp [taOwesRelease] at h <;> omega

/-- C11 (amended). In every reachable state in which the TA is about to execute
`if (waiting > 0) waiting--`, `waiting` is at least 1 and the statement
decrements it by exactly one, to a non-negative value.  The guard is a no-op
only in states that no interleaving reaches: executed in any state with
`waiting = 0`, the statement leaves `waiting` at 0. -/
theorem guarded_release (cfg : Config) (s : State) (hta : s.ta = .release)
    (r : WaitResult) :
    (Reachable cfg s → 1 ≤ s.waiting ∧
      ∃ s1, step cfg s (.ta r) = some s1 ∧ s1.waiting = s.waiting - 1 ∧ 0 ≤ s1.waiting) ∧
    (s.waiting = 0 → ∃ s1, step cfg s (.ta r) = some s1 ∧ s1.waiting = 0) := by
  constructor
  · intro hr
    have h := waiting_eq (inv_reachable hr)
    rw [hta] at h
    simp only [taOwesRelease] at h
    have h1 : 1 ≤ s.waiting := by omega
    have h2 : 0 < s.waiting := by omega
    refine ⟨h1, ?_⟩
    simp [step, ta_thread_step, hta, h2]
    omega
  · intro hw
    simp [step, ta_thread_step, hta, hw]

theorem guarded_release_witness :
    (after cfg111 sched111release).ta = .release ∧
      (after cfg111 sched111release).waiting = 1 ∧
      (1 ≤ (after cfg111 sched111release).waiting ∧
        ∃ s1, step cfg111 (after cfg111 sched111release) (.ta .acquired) = some s1 ∧
          s1.waiting = (after cfg111 sched111release).waiting - 1 ∧ 0 ≤ s1.waiting) ∧
      emptyRelease.ta = .release ∧ emptyRelease.waiting = 0 ∧
      (∃ s1, step cfg111 emptyRelease (.ta .acquired) = some s1 ∧ s1.waiting = 0) :=
  ⟨by decide, by decide,
    (guarded_release cfg111 (after cfg111 sched111release) (by decide) .acquired).1
      (reachable_after cfg111 sched111release),
    by decide, by decide,
    (guarded_release cfg111 emptyRelease (by decide) .acquired).2 (by decide)⟩

/-- C16. Counter/semaphore agreement: in every reachable state in which the
mutex is not held, `waiting` equals the value of `customers` plus 1 if the TA
has lowered `customers` and not yet executed its guarded decrement (plus 0
otherwise); and whenever the TA is about to execute
`if (waiting > 0) waiting--`, `waiting = customers + 1 >= 1`. -/
theorem counter_semaphore_agreement (cfg : Config) (s : State) (hr : Reachable cfg s) :
    (s.mtx = none → s.waiting = s.customers + taOwesRelease s.ta) ∧
      (s.ta = .release → s.waiting = s.customers + 1 ∧ 1 ≤ s.waiting) := by
  have hi := inv_reachable hr
  have h := waiting_eq hi
  constructor
  · intro hm
    have h0 := no_post_pending hi (fun i hc => by rw [hm] at hc; simp at hc)
    omega
  · intro hta
    have hm : s.mtx = some .ta := hi.mutex.taMtx.mp (by simp [hta, taCritical])
    have h0 := no_post_pending hi (fun i hc => by rw [hm] at hc; simp at hc)
    rw [hta] at h
    simp only [taOwesRelease] at h
    omega

theorem counter_semaphore_agreement_witness :
    (after cfg111 sched111lowered).mtx = none ∧
      (after cfg111 sched111lowered).ta = .lockServe ∧
      (after cfg111 sched111lowered).customers = 0 ∧
      (after cfg111 sched111lowered).waiting
        = (after cfg111 sched111lowered).customers
          + taOwesRelease (after cfg111 sched111lowered).ta ∧
      (after cfg111 sched111release).ta = .release ∧
      ((after cfg111 sched111release).waiting = (after cfg111 sched111release).customers + 1 ∧
        1 ≤ (after cfg111 sched111release).waiting) :=
  ⟨by decide, by decide, by decide,
    (counter_semaphore_agreement cfg111 (after cfg111 sched111lowered)
      (reachable_after cfg111 sched111lowered)).1 (by decide),
    by decide,
    (counter_semaphore_agreement cfg111 (after cfg111 sched111release)
      (reachable_after cfg111 sched111release)).2 (by decide)⟩

/-! ## `sem_wait_ms` -/

theorem sem_wait_ms_loop_spec :
    ∀ os : List TimedWait,
      (sem_wait_ms_loop os = some true ↔ firstNonEintr os = some .acquired) ∧
      (sem_wait_ms_loop os = some false ↔
        firstNonEintr os = some .etimedout ∨ firstNonEintr os = some .other) ∧
      (sem_wait_ms_loop os = none ↔ firstNonEintr os = none) ∧
      sem_wait_ms_loop os = (sem_wait_ms_result os).map WaitResult.returns
  | [] => by simp [sem_wait_ms_loop, firstNonEintr, sem_wait_ms_result]
  | .acquired :: rest => by
    simp [sem_wait_ms_loop, firstNonEintr, sem_wait_ms_result, WaitResult.returns]
  | .etimedout :: rest => by
    simp [sem_wait_ms_loop, firstNonEintr, sem_wait_ms_result, WaitResult.returns]
  | .other :: rest => by
    simp [sem_wait_ms_loop, firstNonEintr, sem_wait_ms_result, WaitResult.returns]
  | .eintr :: rest => by
    have ih := sem_wait_ms_loop_spec rest
    simpa [sem_wait_ms_loop, firstNonEintr, sem_wait_ms_result] using ih

theorem sem_wait_ms_loop_eintr :
    ∀ (pre os : List TimedWait), (∀ o ∈ pre, o = .eintr) →
      sem_wait_ms_loop (pre ++ os) = sem_wait_ms_loop os
  | [], os, _ => rfl
  | o :: pre, os, h => by
    have h1 : o = .eintr := h o (List.mem_cons_self o pre)
    subst h1
    simp only [List.cons_append, sem_wait_ms_loop]
    exact sem_wait_ms_loop_eintr pre os (fun o ho => h o (List.mem_cons_of_mem _ ho))

/-- A wait of the TA that comes back with `false` (timed out or failed) leads
to the shutdown check and changes nothing else. -/
theorem failed_wait_step {cfg : Config} {s s1 : State} {r : WaitResult}
    (hta : s.ta = .wait) (hr : r.returns = false) (hs : step cfg s (.ta r) = some s1) :
    s1 = { s with ta := .lockCheck } := by
  cases r with
  | acquired => simp [WaitResult.returns] at hr
  | timedOut =>
    simp only [step, ta_thread_step, hta] at hs
    split at hs <;> simp at hs
    exact hs.symm
  | failed =>
    simp only [step, ta_thread_step, hta] at hs
    simp at hs
    exact hs.symm

/-- C12. Timed-wait error handling: for `timeout_ms >= 0`, over any sequence of
outcomes of `sem_timedwait`, `sem_wait_ms` returns `true` exactly when the first
outcome that is not `EINTR` is "acquired", returns `false` exactly when it is
`ETIMEDOUT` or another error, and has not returned exactly when all outcomes
were `EINTR`; interrupted calls in front change nothing.  In `ta_thread` a
wait that returns `false` because of another error leads to the same state as
a timeout (the start of the shutdown check, with no counter or semaphore
changed), the wait goes on to the service cycle only when it returned `true`,
and in every reachable state `ta_ready` has been posted at most as often as
`customers` has been lowered. -/
theorem timed_wait_error_handling (timeout_ms : Int) (ht : 0 ≤ timeout_ms) (waitOk : Bool)
    (os : List TimedWait) :
    (sem_wait_ms timeout_ms waitOk os = some true ↔ firstNonEintr os = some .acquired) ∧
    (sem_wait_ms timeout_ms waitOk os = some false ↔
      firstNonEintr os = some .etimedout ∨ firstNonEintr os = some .other) ∧
    (sem_wait_ms timeout_ms waitOk os = none ↔ firstNonEintr os = none) ∧
    (∀ pre : List TimedWait, (∀ o ∈ pre, o = .eintr) →
      sem_wait_ms timeout_ms waitOk (pre ++ os) = sem_wait_ms timeout_ms waitOk os) ∧
    sem_wait_ms timeout_ms waitOk os = (sem_wait_ms_result os).map WaitResult.returns ∧
    (∀ (cfg : Config) (s : State), s.ta = .wait →
      step cfg s (.ta .failed) = some { s with ta := .lockCheck } ∧
      (s.customers = 0 → step cfg s (.ta .timedOut) = step cfg s (.ta .failed)) ∧
      (∀ r s1, step cfg s (.ta r) = some s1 →
        s1.ta = (if r.returns then TaPc.lockServe else TaPc.lockCheck) ∧
        s1.readyPosts = s.readyPosts ∧ s1.ta_ready = s.ta_ready ∧
        (r.returns = false → s1 = { s with ta := .lockCheck }))) ∧
    (∀ (cfg : Config) (s : State), Reachable cfg s →
      s.readyPosts ≤ s.lowers ∧ s.lowers = s.readyPosts + taOwesPost s.ta) := by
  have hnot : ¬ timeout_ms < 0 := by omega
  obtain ⟨h1, h2, h3, h4⟩ := sem_wait_ms_loop_spec os
  refine ⟨?_, ?_, ?_, ?_, ?_, ?_, ?_⟩
  · simpa [sem_wait_ms, hnot] using h1
  · simpa [sem_wait_ms, hnot] using h2
  · simpa [sem_wait_ms, hnot] using h3
  · intro pre hpre
    simpa [sem_wait_ms, hnot] using sem_wait_ms_loop_eintr pre os hpre
  · simpa [sem_wait_ms, hnot] using h4
  · intro cfg s hta
    refine ⟨by simp [step, ta_thread_step, hta], ?_, ?_⟩
    · intro hc
      simp [step, ta_thread_step, hta, hc]
    · intro r s1 hs
      cases r with
      | acquired =>
        simp only [step, ta_thread_step, hta] at hs
        split at hs <;> simp at hs
        subst hs
        simp [WaitResult.returns]
      | timedOut =>
        have := failed_wait_step (r := .timedOut) hta rfl hs
        subst this
        simp [WaitResult.returns]
      | failed =>
        have := failed_wait_step (r := .failed) hta rfl hs
        subst this
        simp [WaitResult.returns]
  · intro cfg s hr
    have h := (inv_reachable hr).count.owes
    omega

theorem timed_wait_error_handling_witness :
    (0 : Int) ≤ TA_POLL_MS ∧
      sem_wait_ms TA_POLL_MS false [.eintr, .eintr, .other, .acquired] = some false ∧
      firstNonEintr [.eintr, .eintr, .other, .acquired] = some .other ∧
      sem_wait_ms TA_POLL_MS false [.eintr, .acquired, .other] = some true ∧
      (step cfg111 (after cfg111 sched111lowered) (.ta .failed) ≠ none →
        (after cfg111 sched111lowered).readyPosts ≤ (after cfg111 sched111lowered).lowers) ∧
      step cfg111 (init cfg111) (.ta .timedOut) = step cfg111 (init cfg111) (.ta .failed) :=
  ⟨by decide, by decide, by decide,
    (timed_wait_error_handling TA_POLL_MS (by decide) false [.eintr, .acquired, .other]).1.mpr
      (by decide),
    fun _ => ((timed_wait_error_handling TA_POLL_MS (by decide) false []).2.2.2.2.2.2 cfg111
      (after cfg111 sched111lowered) (reachable_after cfg111 sched111lowered)).1,
    ((timed_wait_error_handling TA_POLL_MS (by decide) false []).2.2.2.2.2.1 cfg111
      (init cfg111) rfl).2.1 rfl⟩

/-! ## `rand_range` -/

theorem rand_range_bounds (rand_r : Nat → Int × Nat) (rng : Nat) (lo hi : Int)
    (h : lo ≤ hi) (hrep : hi - lo + 1 < 2147483648) :
    lo ≤ (rand_range rand_r rng lo hi).1 ∧ (rand_range rand_r rng lo hi).1 ≤ hi := by
  unfold rand_range
  split
  · simp only
    omega
  · rename_i hlt
    simp only [toUnsigned, toInt32]
    have hm : (hi - lo + 1) % 4294967296 = hi - lo + 1 := by omega
    rw [hm]
    have hpos : 0 < hi - lo + 1 := by omega
    have h1 := Int.emod_nonneg ((rand_r rng).1 % 4294967296) (ne_of_gt hpos)
    have h2 := Int.emod_lt_of_pos ((rand_r rng).1 % 4294967296) hpos
    split <;> omega

/-- C15. Bounded random durations: for every generator and generator state and
all ints `lo <= hi` with `hi - lo + 1` representable as `int`, `rand_range`
returns a value in `[lo, hi]`; when `hi <= lo` it returns `lo` (without calling
the generator).  Hence every programming interval lies in `[200, 800]` ms and
every help interval in `[200, 600]` ms. -/
theorem bounded_random_durations (rand_r : Nat → Int × Nat) (rng : Nat) :
    (∀ lo hi : Int, lo ≤ hi → hi - lo + 1 < 2147483648 →
      lo ≤ (rand_range rand_r rng lo hi).1 ∧ (rand_range rand_r rng lo hi).1 ≤ hi) ∧
    (∀ lo hi : Int, hi ≤ lo → rand_range rand_r rng lo hi = (lo, rng)) ∧
    (200 ≤ code_ms rand_r rng ∧ code_ms rand_r rng ≤ 800) ∧
    (∀ now : Int, 200 ≤ help_ms rand_r now ∧ help_ms rand_r now ≤ 600) := by
  refine ⟨fun lo hi h hrep => rand_range_bounds rand_r rng lo hi h hrep, ?_, ?_, ?_⟩
  · intro lo hi h
    simp [rand_range, h]
  · exact rand_range_bounds rand_r rng 200 800 (by decide) (by decide)
  · intro now
    exact rand_range_bounds rand_r _ 200 600 (by decide) (by decide)

theorem bounded_random_durations_witness :
    ((3 : Int) ≤ 9 ∧ (9 : Int) - 3 + 1 < 2147483648) ∧
      rand_range (fun st => (1804289383, st + 1)) 42 3 9 = (4, 43) ∧
      (3 ≤ (rand_range (fun st => (1804289383, st + 1)) 42 3 9).1 ∧
        (rand_range (fun st => (1804289383, st + 1)) 42 3 9).1 ≤ 9) ∧
      rand_range (fun st => (1804289383, st + 1)) 42 9 3 = (9, 42) ∧
      code_ms (fun st => (1804289383, st + 1)) 42 = 438 :=
  ⟨by decide, by decide,
    (bounded_random_durations (fun st => (1804289383, st + 1)) 42).1 3 9 (by decide)
      (by decide),
    (bounded_random_durations (fun st => (1804289383, st + 1)) 42).2.1 9 3 (by decide),
    by decide⟩

/-! ## Seeds -/

theorem xor_mod_two_pow (x y n : Nat) :
    (x ^^^ y) % 2 ^ n = (x % 2 ^ n) ^^^ (y % 2 ^ n) := by
  apply Nat.eq_of_testBit_eq
  intro i
  simp only [Nat.testBit_mod_two_pow, Nat.testBit_xor]
  by_cases h : i < n <;> simp [h]

/-- The seed is the XOR of the time-and-address part and the index part. -/
theorem seed_eq (now : Int) (addr i : Nat) :
    seed now addr i = seedMix now addr ^^^ (i * 2654435761 % 4294967296) := by
  have h := xor_mod_two_pow
    ((now % 18446744073709551616).toNat ^^^ (addr % 18446744073709551616))
    (i * 2654435761 % 4294967296) 32
  have e : (2 : Nat) ^ 32 = 4294967296 := by norm_num
  rw [e] at h
  unfold seed seedMix
  rw [h, Nat.mod_mod]

/-- Multiplication by the odd constant is injective on 32-bit values. -/
theorem index_term_injective (i j : Nat) (hi : i < 4294967296) (hj : j < 4294967296)
    (h : i * 2654435761 % 4294967296 = j * 2654435761 % 4294967296) : i = j := by
  have hc : Nat.gcd 4294967296 2654435761 = 1 := by norm_num
  have h1 : i ≡ j [MOD 4294967296] := Nat.ModEq.cancel_right_of_coprime hc h
  unfold Nat.ModEq at h1
  rw [Nat.mod_eq_of_lt hi, Nat.mod_eq_of_lt hj] at h1
  exact h1

/-- The claim C14 fails: students 0 and 16 of a run with at least 17 students,
created within the same second at two different 16-byte aligned addresses,
get the same seed. -/
theorem seed_collision :
    (0 : Nat) ≠ 16 ∧ (94351841562624 : Nat) ≠ 94355657820944 ∧
      seed 1793000000 94351841562624 0 = seed 1793000000 94355657820944 16 := by
  decide

/-- C14 (amended). For two distinct student indices `i`, `j` below `2^32`, the
seeds differ exactly when the low 32 bits of `time XOR address` of the two
students do not differ by the XOR of the two index terms `i * 2654435761` and
`j * 2654435761` (mod `2^32`); the index terms of distinct indices are always
different, so the seeds differ in particular whenever `time XOR address` has
the same low 32 bits for both students. -/
theorem seeds_distinct_by_index (now1 now2 : Int) (addr1 addr2 i j : Nat)
    (hi : i < 4294967296) (hj : j < 4294967296) (hij : i ≠ j) :
    i * 2654435761 % 4294967296 ≠ j * 2654435761 % 4294967296 ∧
    (seed now1 addr1 i ≠ seed now2 addr2 j ↔
      seedMix now1 addr1 ^^^ seedMix now2 addr2
        ≠ (i * 2654435761 % 4294967296) ^^^ (j * 2654435761 % 4294967296)) ∧
    (seedMix now1 addr1 = seedMix now2 addr2 → seed now1 addr1 i ≠ seed now2 addr2 j) := by
  have hne : i * 2654435761 % 4294967296 ≠ j * 2654435761 % 4294967296 :=
    fun h => hij (index_term_injective i j hi hj h)
  have key : ∀ a b c d : Nat, a ^^^ c = b ^^^ d ↔ a ^^^ b = c ^^^ d := by
    intro a b c d
    constructor
    · intro h
      have h1 : a ^^^ b = a ^^^ b ^^^ (a ^^^ c) ^^^ (b ^^^ d) := by
        rw [h, Nat.xor_assoc, Nat.xor_self, Nat.xor_zero]
      rw [h1]
      apply Nat.eq_of_testBit_eq
      intro k
      simp only [Nat.testBit_xor]
      cases a.testBit k <;> cases b.testBit k <;> cases c.testBit k <;>
        cases d.testBit k <;> rfl
    · intro h
      have h1 : a ^^^ c = a ^^^ c ^^^ (a ^^^ b) ^^^ (c ^^^ d) := by
        rw [h, Nat.xor_assoc, Nat.xor_self, Nat.xor_zero]
      rw [h1]
      apply Nat.eq_of_testBit_eq
      intro k
      simp only [Nat.testBit_xor]
      cases a.testBit k <;> cases b.testBit k <;> cases c.testBit k <;>
        cases d.testBit k <;> rfl
  refine ⟨hne, ?_, ?_⟩
  · rw [seed_eq, seed_eq]
    exact not_congr (key _ _ _ _)
  · intro hmix
    rw [seed_eq, seed_eq, hmix]
    intro h
    exact hne (Nat.xor_right_inj.mp h)

theorem seeds_distinct_by_index_witness :
    ((3 : Nat) < 4294967296 ∧ (4 : Nat) < 4294967296 ∧ (3 : Nat) ≠ 4) ∧
      seedMix 1793000000 94351841562624 = seedMix 1793000000 94351841562624 ∧
      seed 1793000000 94351841562624 3 = 2960752467 ∧
      seed 1793000000 94351841562624 3 ≠ seed 1793000000 94351841562624 4 :=
  ⟨by decide, rfl, by decide,
    (seeds_distinct_by_index 1793000000 1793000000 94351841562624 94351841562624 3 4
      (by decide) (by decide) (by decide)).2.2 rfl⟩

end A3

namespace Shell

/-! ## The history buffer -/

theorem holds_init : Holds [] history_init := by
  constructor <;> simp [history_init]

theorem holds_add {cmds : List String} {h : History} (hh : Holds cmds h) (c : String)
    (hc : c ≠ "") : Holds (cmds ++ [c]) (history_add h (some c)) := by
  obtain ⟨h1, h2, h3, h4, h5⟩ := hh
  have hn : h.next.toNat = cmds.length % 5 := by omega
  have hnext : (h.next + 1).tmod HISTORY_SIZE = ((cmds.length + 1) % 5 : Nat) := by
    rw [HISTORY_SIZE, Int.tmod_eq_emod (by omega) (by omega)]
    omega
  constructor
  · simp [history_add, hc, h1]
  · simp only [history_add, hc, if_false, HISTORY_SIZE, List.length_append,
      List.length_singleton]
    split <;> omega
  · simp only [history_add, hc, if_false, List.length_append, List.length_singleton]
    omega
  · simp only [history_add, hc, if_false, List.length_append, List.length_singleton]
    exact hnext
  · intro k hk
    simp only [List.length_append, List.length_singleton] at hk ⊢
    simp only [history_add, hc, if_false, hn]
    by_cases hk0 : k = 0
    · subst hk0
      have e1 : cmds.length + 1 - 1 - 0 = cmds.length := by omega
      rw [e1]
      have hlt : cmds.length % 5 < h.items.length := by omega
      simp [List.getD_eq_getElem?_getD, List.getElem?_set, hlt]
    · have hne : cmds.length % 5 ≠ (cmds.length + 1 - 1 - k) % 5 := by omega
      have hold := h5 (k - 1) (by omega)
      have e2 : cmds.length - 1 - (k - 1) = cmds.length + 1 - 1 - k := by omega
      rw [e2] at hold
      have hlt : cmds.length + 1 - 1 - k < cmds.length := by omega
      rw [List.getElem?_append_left hlt, ← hold]
      have hne1 : ¬ cmds.length % 5 = (cmds.length - k) % 5 := by omega
      simp [List.getD_eq_getElem?_getD, List.getElem?_set, hne1]

theorem addAll_append (cmds : List String) (c : String) :
    addAll (cmds ++ [c]) = history_add (addAll cmds) (some c) := by
  simp [addAll, List.foldl_append]

theorem holds_addAll (cmds : List String) (hne : ∀ c ∈ cmds, c ≠ "") :
    Holds cmds (addAll cmds) := by
  induction cmds using List.reverseRecOn with
  | nil => exact holds_init
  | append_singleton l c ih =>
    rw [addAll_append]
    apply holds_add
    · exact ih (fun x hx => hne x (List.mem_append_left _ hx))
    · exact hne c (by simp)


theorem ring_index (n k : Nat) (next : Int) (hnext : next = (n % 5 : Nat)) (hk : k < 5)
    (hkn : k < n) :
    ((next - 1 - k + HISTORY_SIZE).tmod HISTORY_SIZE).toNat = (n - 1 - k) % 5 := by
  rw [HISTORY_SIZE, Int.tmod_eq_emod (by omega) (by omega)]
  omega

/-- C13. Shell history ring buffer: starting from `history_init`, after
`history_add` of any sequence of `n >= 1` non-empty commands, `count` is
`min(n, 5)`, `total` is `n`, `history_most_recent` returns the last command,
and `history_print` emits exactly `min(n, 5)` lines, line `k` (0 first)
carrying the number `n - k` and the command added as number `n - k` (index
`n - 1 - k` of the list); adding an empty command or `NULL` changes nothing. -/
theorem history_ring_buffer (cmds : List String) (hne : ∀ c ∈ cmds, c ≠ "")
    (hn : 1 ≤ cmds.length) :
    (addAll cmds).count = (min cmds.length 5 : Nat) ∧
    (addAll cmds).total = (cmds.length : Nat) ∧
    history_most_recent (addAll cmds) = cmds[cmds.length - 1]? ∧
    history_most_recent (addAll cmds) = cmds.getLast? ∧
    history_print (addAll cmds)
      = (List.range (min cmds.length 5)).map
          (fun k : Nat => (((cmds.length : Nat) : Int) - (k : Int), cmds[cmds.length - 1 - k]?)) ∧
    (history_print (addAll cmds)).length = min cmds.length 5 ∧
    (∀ k, k < min cmds.length 5 → ∃ c, cmds[cmds.length - 1 - k]? = some c ∧ c ≠ "") ∧
    (∀ h : History, history_add h (some "") = h ∧ history_add h none = h) := by
  obtain ⟨h1, h2, h3, h4, h5⟩ := holds_addAll cmds hne
  have hcount : ¬ (addAll cmds).count = 0 := by omega
  have hrecent : history_most_recent (addAll cmds) = cmds[cmds.length - 1]? := by
    have hidx := ring_index cmds.length 0 (addAll cmds).next h4 (by omega) (by omega)
    simp only [Nat.cast_zero, sub_zero] at hidx
    simp only [history_most_recent, hcount, if_false, hidx]
    exact h5 0 (by omega)
  have hprint : history_print (addAll cmds)
      = (List.range (min cmds.length 5)).map
          (fun k : Nat => (((cmds.length : Nat) : Int) - (k : Int), cmds[cmds.length - 1 - k]?)) := by
    have hc : (addAll cmds).count.toNat = min cmds.length 5 := by omega
    simp only [history_print, hcount, if_false, hc]
    apply List.map_congr_left
    intro k hk
    have hk1 : k < min cmds.length 5 := List.mem_range.mp hk
    have hidx := ring_index cmds.length k (addAll cmds).next h4 (by omega) (by omega)
    rw [hidx, h3, h5 k hk1]
  refine ⟨h2, h3, hrecent, ?_, hprint, ?_, ?_, ?_⟩
  · rw [hrecent, List.getLast?_eq_getElem?]
  · rw [hprint]
    simp
  · intro k hk
    have hlt : cmds.length - 1 - k < cmds.length := by omega
    refine ⟨cmds[cmds.length - 1 - k], List.getElem?_eq_getElem hlt, ?_⟩
    exact hne _ (List.getElem_mem _)
  · intro h
    simp [history_add]

theorem history_ring_buffer_witness :
    (∀ c ∈ ["ls", "pwd", "cd /tmp", "cat a", "echo b", "make", "gcc x.c"], c ≠ "") ∧
      history_print (addAll ["ls", "pwd", "cd /tmp", "cat a", "echo b", "make", "gcc x.c"])
        = [(7, some "gcc x.c"), (6, some "make"), (5, some "echo b"), (4, some "cat a"),
           (3, some "cd /tmp")] ∧
      (addAll ["ls", "pwd", "cd /tmp", "cat a", "echo b", "make", "gcc x.c"]).count
        = (min 7 5 : Nat) ∧
      (addAll ["ls", "pwd", "cd /tmp", "cat a", "echo b", "make", "gcc x.c"]).total = 7 ∧
      history_most_recent
          (addAll ["ls", "pwd", "cd /tmp", "cat a", "echo b", "make", "gcc x.c"])
        = some "gcc x.c" :=
  ⟨by decide, by decide,
    (history_ring_buffer ["ls", "pwd", "cd /tmp", "cat a", "echo b", "make", "gcc x.c"]
      (by decide) (by decide)).1,
    (history_ring_buffer ["ls", "pwd", "cd /tmp", "cat a", "echo b", "make", "gcc x.c"]
      (by decide) (by decide)).2.1,
    (history_ring_buffer ["ls", "pwd", "cd /tmp", "cat a", "echo b", "make", "gcc x.c"]
      (by decide) (by decide)).2.2.1⟩

end Shell
